import Mathlib

/-!
# Urho3D raycast-and-animation demo (`src/main.cpp`)

A shallow embedding of the application class `MyApp`:

* `HandleKeyDown` (lines 137-149),
* `HandleUpdate` (lines 159-224): bookkeeping, camera look with the clamped
  pitch, and the debug sweep that colours one line per ray,
* `TestRaycastOnNodeWithAnimatedModel` (lines 226-308): CPU skinning of every
  geometry followed by a ray/triangle test.

Conventions.

* The C++ `float` variables of `HandleUpdate` (sweep abscissa, yaw, pitch,
  clock) only ever hold finite values; they are values of `F32`, a model of
  the finite IEEE-754 binary32 numbers with round-to-nearest, ties-to-even
  arithmetic.  The number of sweep iterations depends on that rounding.
* Float data that comes from outside (vertex positions and weights, bone
  matrices) can be any binary32 datum; `Binary32` adds the infinities and
  NaN to the finite values, with overflow to infinity and comparisons that
  are false on a NaN.  Every operation is rounded on its own (no fused
  multiply-add).
* Vector and matrix code is written once, over an arbitrary scalar type
  carrying the operations the C++ uses.  Statements on what the skinning
  computes on float data are made at `Binary32`; statements that read a blend
  as a mathematical sum are made over scalars with exact arithmetic (a
  linearly ordered commutative ring such as `ℚ`).
* Engine objects are plain data holding what `main.cpp` reads from them.
  Engine calls whose result `main.cpp` consumes but whose code is not part of
  `main.cpp` (octree raycast, ray/triangle distance, matrix decomposition,
  normalisation) are fields of `Engine`.  Engine calls that only change
  engine-side objects are recorded in a call trace.
* The C++ dereferences the results of engine lookups unchecked; the model
  describes the executions in which those lookups succeed.
-/

namespace Urho3dRaycast

/-! ## binary32 -/

/-- A finite binary32 number, stored as its integer multiple of `2⁻¹⁴⁹`
(the spacing of the subnormals, of which every finite binary32 value is a
multiple). -/
structure F32 where
  units : ℤ
deriving DecidableEq, Repr

namespace F32

/-- Nearest natural number to `p / d`, ties to even. -/
def roundFrac (p d : ℕ) : ℕ :=
  let q := p / d
  let r := p % d
  if 2 * r < d then q else if d < 2 * r then q + 1 else if q % 2 = 0 then q else q + 1

/-- Number of low-order bits that `f` has beyond a 24-bit significand. -/
def excessBits : ℕ → ℕ → ℕ
  | 0, _ => 0
  | fuel + 1, f => if f < 2 ^ 24 then 0 else excessBits fuel (f / 2) + 1

/-- Magnitude, in units of `2⁻¹⁴⁹`, of the binary32 number nearest to
`(p / d) · 2⁻¹⁴⁹`: the quotient is rounded, ties to even, at the position of
the last bit of a 24-bit significand. -/
def roundMag (p d : ℕ) : ℕ :=
  let shift := excessBits (p / d) (p / d)
  roundFrac p (d * 2 ^ shift) * 2 ^ shift

/-- Round `(n / d) · 2⁻¹⁴⁹` to binary32 (overflow to infinity is not
represented; the values of `HandleUpdate` stay far below `2¹²⁸`). -/
def round (n : ℤ) (d : ℕ) : F32 :=
  if n < 0 then ⟨-(roundMag n.natAbs d : ℤ)⟩ else ⟨(roundMag n.natAbs d : ℤ)⟩

/-- The binary32 number nearest to the fraction `num / den`: the value of a
decimal literal such as `0.2f` (`ofFrac 2 10`). -/
def ofFrac (num : ℤ) (den : ℕ) : F32 := round (num * ((2 ^ 149 : ℕ) : ℤ)) den

/-- Conversion of an `int` to `float`. -/
def ofInt (i : ℤ) : F32 := ofFrac i 1

/-- The rational number a binary32 value stands for. -/
def toRat (a : F32) : ℚ := (a.units : ℚ) / ((2 ^ 149 : ℕ) : ℚ)

instance : Zero F32 := ⟨⟨0⟩⟩
instance : One F32 := ⟨ofInt 1⟩
instance : Add F32 := ⟨fun a b => round (a.units + b.units) 1⟩
instance : Sub F32 := ⟨fun a b => round (a.units - b.units) 1⟩
instance : Mul F32 := ⟨fun a b => round (a.units * b.units) (2 ^ 149)⟩
instance : LT F32 := ⟨fun a b => a.units < b.units⟩
instance : LE F32 := ⟨fun a b => a.units ≤ b.units⟩
instance : DecidableRel (α := F32) (· < ·) := fun a b => Int.decLt a.units b.units
instance : DecidableRel (α := F32) (· ≤ ·) := fun a b => Int.decLe a.units b.units

end F32

/-- A binary32 datum as it can sit in a vertex buffer or a matrix: a finite
value (stored like `F32`, as its integer multiple of `2⁻¹⁴⁹`), an infinity
with its sign, or a NaN.  The two zeros are one value: the operations used
here (`+`, `-`, `*`, `<`, `<=`) do not tell them apart. -/
inductive Binary32 where
  | finite (units : ℤ)
  | infinity (negative : Bool)
  | nan
deriving DecidableEq, Repr

namespace Binary32

/-- Round `(n / d) · 2⁻¹⁴⁹` to binary32: to nearest, ties to even, and to an
infinity when the rounded magnitude reaches `2¹²⁸`. -/
def ofExact (n : ℤ) (d : ℕ) : Binary32 :=
  let r := F32.round n d
  if r.units.natAbs < 2 ^ 128 * 2 ^ 149 then finite r.units else infinity (decide (n < 0))

/-- The binary32 number nearest to the fraction `num / den`. -/
def ofFrac (num : ℤ) (den : ℕ) : Binary32 := ofExact (num * ((2 ^ 149 : ℕ) : ℤ)) den

/-- The operator `float + float`. -/
def add : Binary32 → Binary32 → Binary32
  | nan, _ => nan
  | _, nan => nan
  | infinity s, infinity t => if s = t then infinity s else nan
  | infinity s, finite _ => infinity s
  | finite _, infinity t => infinity t
  | finite a, finite b => ofExact (a + b) 1

/-- The operator unary minus. -/
def neg : Binary32 → Binary32
  | nan => nan
  | infinity s => infinity (!s)
  | finite a => finite (-a)

/-- The operator `float * float`. -/
def mul : Binary32 → Binary32 → Binary32
  | nan, _ => nan
  | _, nan => nan
  | infinity s, infinity t => infinity (s != t)
  | infinity s, finite b => if b = 0 then nan else infinity (s != decide (b < 0))
  | finite a, infinity t => if a = 0 then nan else infinity (decide (a < 0) != t)
  | finite a, finite b => ofExact (a * b) (2 ^ 149)

/-- The comparison `float < float`, false whenever an operand is a NaN. -/
def ltb : Binary32 → Binary32 → Bool
  | nan, _ => false
  | _, nan => false
  | infinity s, infinity t => s && !t
  | infinity s, finite _ => s
  | finite _, infinity t => !t
  | finite a, finite b => decide (a < b)

/-- The comparison `float <= float`, false whenever an operand is a NaN. -/
def leb : Binary32 → Binary32 → Bool
  | nan, _ => false
  | _, nan => false
  | infinity s, infinity t => s || !t
  | infinity s, finite _ => s
  | finite _, infinity t => !t
  | finite a, finite b => decide (a ≤ b)

instance : Zero Binary32 := ⟨finite 0⟩
instance : One Binary32 := ⟨ofFrac 1 1⟩
instance : Add Binary32 := ⟨add⟩
instance : Sub Binary32 := ⟨fun a b => add a (neg b)⟩
instance : Mul Binary32 := ⟨mul⟩
instance : LT Binary32 := ⟨fun a b => ltb a b = true⟩
instance : LE Binary32 := ⟨fun a b => leb a b = true⟩
instance : DecidableRel (α := Binary32) (· < ·) := fun a b =>
  inferInstanceAs (Decidable (ltb a b = true))
instance : DecidableRel (α := Binary32) (· ≤ ·) := fun a b =>
  inferInstanceAs (Decidable (leb a b = true))

end Binary32

/-! ## Engine mathematics used by `main.cpp` -/

/-- Modelled from the spec: the engine's `Clamp` template (its code is not in
`main.cpp`), which the source comment describes as clamping the pitch
between -90 and 90 degrees: values below `min` become `min`, values above
`max` become `max`, other values are returned unchanged. -/
def Clamp {α : Type} [LT α] [DecidableRel (α := α) (· < ·)] (value min max : α) : α :=
  if value < min then min else if max < value then max else value

/-- The engine's `Vector3`: three scalars. -/
structure Vector3 (α : Type) where
  x_ : α
  y_ : α
  z_ : α
deriving DecidableEq, Repr

/-- The engine's `IntVector2`. -/
structure IntVector2 where
  x_ : ℤ
  y_ : ℤ
deriving DecidableEq, Repr

/-- The engine's `Matrix3x4`: the three rows of an affine transform. -/
structure Matrix3x4 (α : Type) where
  m00 : α
  m01 : α
  m02 : α
  m03 : α
  m10 : α
  m11 : α
  m12 : α
  m13 : α
  m20 : α
  m21 : α
  m22 : α
  m23 : α
deriving DecidableEq, Repr

/-- The engine's `Ray`. -/
structure Ray (α : Type) where
  origin_ : Vector3 α
  direction_ : Vector3 α
deriving DecidableEq, Repr

section Algebra

variable {α : Type}

/-- Modelled from the spec: the engine's default constructor of `Vector3`
(its code is not in `main.cpp`), which sets all components to zero; the blend
of a vertex starts from this vector. -/
instance [Zero α] : Zero (Vector3 α) := ⟨⟨0, 0, 0⟩⟩

/-- Modelled from the spec: the engine operator `Vector3 + Vector3` (its code
is not in `main.cpp`), the component-wise sum used to blend the bone
contributions. -/
instance [Add α] : Add (Vector3 α) := ⟨fun a b => ⟨a.x_ + b.x_, a.y_ + b.y_, a.z_ + b.z_⟩⟩

/-- Modelled from the spec: the engine operator `Vector3 - Vector3` (its code
is not in `main.cpp`), the component-wise difference. -/
instance [Sub α] : Sub (Vector3 α) := ⟨fun a b => ⟨a.x_ - b.x_, a.y_ - b.y_, a.z_ - b.z_⟩⟩

/-- Modelled from the spec: the engine operator `Vector3 * float` (its code is
not in `main.cpp`), which multiplies every component by the scalar. -/
def Vector3.scale [Mul α] (v : Vector3 α) (rhs : α) : Vector3 α :=
  ⟨v.x_ * rhs, v.y_ * rhs, v.z_ * rhs⟩

/-- Modelled from the spec: the engine operator `Matrix3x4 * float` (its code
is not in `main.cpp`), which multiplies every element by the scalar; this is
how a bone matrix is weighted by a skin weight. -/
def Matrix3x4.scale [Mul α] (m : Matrix3x4 α) (rhs : α) : Matrix3x4 α :=
  ⟨m.m00 * rhs, m.m01 * rhs, m.m02 * rhs, m.m03 * rhs,
   m.m10 * rhs, m.m11 * rhs, m.m12 * rhs, m.m13 * rhs,
   m.m20 * rhs, m.m21 * rhs, m.m22 * rhs, m.m23 * rhs⟩

/-- Modelled from the spec: the engine operator `Matrix3x4 * Vector3` (its
code is not in `main.cpp`), which applies the matrix to a point as an affine
transform: the 3x3 part times the vector plus the translation column. -/
def Matrix3x4.mulVec [Add α] [Mul α] (m : Matrix3x4 α) (rhs : Vector3 α) : Vector3 α :=
  ⟨m.m00 * rhs.x_ + m.m01 * rhs.y_ + m.m02 * rhs.z_ + m.m03,
   m.m10 * rhs.x_ + m.m11 * rhs.y_ + m.m12 * rhs.z_ + m.m13,
   m.m20 * rhs.x_ + m.m21 * rhs.y_ + m.m22 * rhs.z_ + m.m23⟩

/-- Modelled from the spec: the engine operator `Matrix3x4 * Matrix3x4` (its
code is not in `main.cpp`), the composition of two affine transforms. -/
def Matrix3x4.mul [Add α] [Mul α] (m rhs : Matrix3x4 α) : Matrix3x4 α :=
  ⟨m.m00 * rhs.m00 + m.m01 * rhs.m10 + m.m02 * rhs.m20,
   m.m00 * rhs.m01 + m.m01 * rhs.m11 + m.m02 * rhs.m21,
   m.m00 * rhs.m02 + m.m01 * rhs.m12 + m.m02 * rhs.m22,
   m.m00 * rhs.m03 + m.m01 * rhs.m13 + m.m02 * rhs.m23 + m.m03,
   m.m10 * rhs.m00 + m.m11 * rhs.m10 + m.m12 * rhs.m20,
   m.m10 * rhs.m01 + m.m11 * rhs.m11 + m.m12 * rhs.m21,
   m.m10 * rhs.m02 + m.m11 * rhs.m12 + m.m12 * rhs.m22,
   m.m10 * rhs.m03 + m.m11 * rhs.m13 + m.m12 * rhs.m23 + m.m13,
   m.m20 * rhs.m00 + m.m21 * rhs.m10 + m.m22 * rhs.m20,
   m.m20 * rhs.m01 + m.m21 * rhs.m11 + m.m22 * rhs.m21,
   m.m20 * rhs.m02 + m.m21 * rhs.m12 + m.m22 * rhs.m22,
   m.m20 * rhs.m03 + m.m21 * rhs.m13 + m.m22 * rhs.m23 + m.m23⟩

end Algebra

/-! ## Scene data read by `main.cpp` -/

/-- One vertex of a vertex buffer, as the skinning loop reads it: the
position at the start of the vertex, the four blend weights
(`SEM_BLENDWEIGHTS`, `TYPE_VECTOR4`) and the four blend indices
(`SEM_BLENDINDICES`, `TYPE_UBYTE4`, each an `unsigned char`). -/
structure Vertex (α : Type) where
  position : Vector3 α
  blendWeights : Fin 4 → α
  blendIndices : Fin 4 → Fin 256

/-- The engine's `Geometry`: the first `GetVertexCount()` vertices of its raw
vertex data, its raw index data and its index range. -/
structure Geometry (α : Type) where
  vertices : List (Vertex α)
  indexData : List ℕ
  indexStart : ℕ
  indexCount : ℕ

/-- The engine's `Model`: per geometry index the LOD-0 geometry, `none` where
`GetGeometry(g, 0)` is null. -/
structure Model (α : Type) where
  geometries : List (Option (Geometry α))

/-- The number of geometries, `Model::GetNumGeometries`. -/
def Model.GetNumGeometries {α : Type} (model : Model α) : ℕ := model.geometries.length

/-- The geometry `Model::GetGeometry(g, 0)`, `none` for a null pointer. -/
def Model.GetGeometry {α : Type} (model : Model α) (g : ℕ) : Option (Geometry α) :=
  (model.geometries.get? g).join

/-- The engine's `Bone`. -/
structure Bone (α : Type) where
  name_ : String
  offsetMatrix_ : Matrix3x4 α

/-- The engine's `Skeleton`. -/
structure Skeleton (α : Type) where
  bones : List (Bone α)

/-- The number of bones, `Skeleton::GetNumBones`. -/
def Skeleton.GetNumBones {α : Type} (skeleton : Skeleton α) : ℕ := skeleton.bones.length

/-- The engine's `AnimatedModel` component. -/
structure AnimatedModel (α : Type) where
  model : Model α
  skeleton : Skeleton α

/-- A scene node as `TestRaycastOnNodeWithAnimatedModel` reads it: its world
position, its `AnimatedModel` component, and the world transform of the
child found by `GetChild(name, true)`. -/
structure Node (α : Type) where
  worldPosition : Vector3 α
  animatedModel : AnimatedModel α
  childWorldTransform : String → Matrix3x4 α

/-- The engine's `Drawable`, reduced to its type name. -/
structure Drawable where
  typeName : String
deriving DecidableEq, Repr

/-- The engine's `RayQueryResult`. -/
structure RayQueryResult (α : Type) where
  drawable_ : Drawable
  node_ : Node α

/-- Engine functions whose results `main.cpp` consumes. -/
structure Engine (α : Type) where
  /-- The engine's `Quaternion`. -/
  Quaternion : Type
  /-- The method `Matrix3x4::Decompose`: translation, rotation, scale. -/
  Decompose : Matrix3x4 α → Vector3 α × Quaternion × Vector3 α
  /-- The constructor `Matrix3x4(translation, rotation, scale)`. -/
  fromTRS : Vector3 α → Quaternion → Vector3 α → Matrix3x4 α
  /-- The method `Ray::HitDistance` on vertex data, index data and an index
  range; `⊤` stands for a result that is not below `M_INFINITY`. -/
  HitDistance : Ray α → List (Vertex α) → List ℕ → ℕ → ℕ → WithTop α
  /-- The method `Vector3::Normalized`. -/
  Normalized : Vector3 α → Vector3 α
  /-- The method `Octree::Raycast` for a `RAY_TRIANGLE` query of unlimited
  distance over `DRAWABLE_GEOMETRY`, on the current scene. -/
  Raycast : Ray α → List (RayQueryResult α)

/-- The constant `M_INFINITY`. -/
def M_INFINITY {α : Type} : WithTop α := ⊤

/-! ## `TestRaycastOnNodeWithAnimatedModel` (lines 226-308) -/

section Skinning

variable {α : Type} [Zero α] [One α] [Add α] [Sub α] [Mul α] [LT α] [LE α]
  [DecidableRel (α := α) (· < ·)] [DecidableRel (α := α) (· ≤ ·)]

/-- Body of the bone loop (lines 242-250): the world transform of the bone's
node is decomposed, its translation is made relative to the model's node, the
transform is rebuilt and multiplied by the bone's offset matrix. -/
def boneMatrix (E : Engine α) (node : Node α) (bone : Bone α) : Matrix3x4 α :=
  let tarnsformOfBone := node.childWorldTransform bone.name_
  let prs := E.Decompose tarnsformOfBone
  let pos := prs.1 - node.worldPosition
  let tarnsformOfBone := E.fromTRS pos prs.2.1 prs.2.2
  tarnsformOfBone.mul bone.offsetMatrix_

/-- Body of the influence loop (lines 284-290) for influence `i`: the
influence is skipped when its bone index is not below the number of bones
(an `unsigned char` is never negative) or when its weight is not in `(0, 1]`;
otherwise the bone matrix scaled by the weight is applied to the base vertex
and added to the accumulator. -/
def blendInfluence (matricesOfBones : List (Matrix3x4 α)) (ptrWeights : Fin 4 → α)
    (ptrIndices : Fin 4 → Fin 256) (baseVertex animatedVertex : Vector3 α) (i : Fin 4) :
    Vector3 α :=
  let w := ptrWeights i
  let ind := (ptrIndices i).val
  let numberOfBones := matricesOfBones.length
  if h : numberOfBones ≤ ind then animatedVertex
  else if w ≤ 0 ∨ 1 < w then animatedVertex
  else animatedVertex + ((matricesOfBones.get ⟨ind, by omega⟩).scale w).mulVec baseVertex

/-- Body of the vertex loop (lines 277-294): the four influences are
accumulated from the zero vector and the result overwrites the position of
the copied vertex; the rest of the vertex keeps its copied content. -/
def skinVertex (matricesOfBones : List (Matrix3x4 α)) (vertex : Vertex α) : Vertex α :=
  let baseVertex := vertex.position
  let animatedVertex :=
    ([0, 1, 2, 3] : List (Fin 4)).foldl
      (blendInfluence matricesOfBones vertex.blendWeights vertex.blendIndices baseVertex) 0
  { vertex with position := animatedVertex }

/-- The copied vertex buffer after the vertex loop (lines 269-295). -/
def skinVertices (matricesOfBones : List (Matrix3x4 α)) (dataOfVertices : List (Vertex α)) :
    List (Vertex α) :=
  dataOfVertices.map (skinVertex matricesOfBones)

/-- The distance computed at lines 297-298 for one geometry: the ray/triangle
distance of the local ray against the skinned copy of its vertices. -/
def distanceToGeometry (E : Engine α) (localRay : Ray α)
    (matricesOfBones : List (Matrix3x4 α)) (geometry : Geometry α) : WithTop α :=
  E.HitDistance localRay (skinVertices matricesOfBones geometry.vertices)
    geometry.indexData geometry.indexStart geometry.indexCount

/-- The geometry loop (lines 255-305) from index `g` with `remaining`
iterations left: null geometries are skipped, the first geometry whose
distance is below `M_INFINITY` makes the function return `true`, and the
loop falls through to `return false`. -/
def geometryLoop (E : Engine α) (localRay : Ray α) (matricesOfBones : List (Matrix3x4 α))
    (model : Model α) : ℕ → ℕ → Bool
  | 0, _ => false
  | remaining + 1, g =>
    match model.GetGeometry g with
    | none => geometryLoop E localRay matricesOfBones model remaining (g + 1)
    | some geometry =>
      if distanceToGeometry E localRay matricesOfBones geometry < M_INFINITY then true
      else geometryLoop E localRay matricesOfBones model remaining (g + 1)

/-- The ray moved into the node's frame (lines 231-232). -/
def localRayOf (ray : Ray α) (node : Node α) : Ray α :=
  { ray with origin_ := ray.origin_ - node.worldPosition }

/-- The vector `matricesOfBones` after the bone loop (lines 238-251). -/
def matricesOfBonesOf (E : Engine α) (node : Node α) : List (Matrix3x4 α) :=
  node.animatedModel.skeleton.bones.map (boneMatrix E node)

/-- The method `MyApp::TestRaycastOnNodeWithAnimatedModel`. -/
def TestRaycastOnNodeWithAnimatedModel (E : Engine α) (ray : Ray α) (node : Node α) : Bool :=
  let animatedModel := node.animatedModel
  let model := animatedModel.model
  let skeletion := animatedModel.skeleton
  let localRay := localRayOf ray node
  if skeletion.GetNumBones = 0 then true
  else
    let matricesOfBones := matricesOfBonesOf E node
    geometryLoop E localRay matricesOfBones model model.GetNumGeometries 0

end Skinning

/-! ## Application state -/

/-- Modelled from the spec: the engine's `Input` subsystem (its code is not in
`main.cpp`), reduced to the mouse-cursor flags: `SetMouseVisible` and
`SetMouseGrabbed` store the flag that `IsMouseVisible` and `IsMouseGrabbed`
return. -/
structure Input where
  mouseVisible : Bool
  mouseGrabbed : Bool
deriving DecidableEq, Repr

/-- The engine's key codes compared against in `HandleKeyDown`. -/
structure KeyCodes where
  KEY_ESCAPE : ℤ
  KEY_TAB : ℤ
deriving DecidableEq, Repr

/-- The three `Color` constants used for debug lines. -/
inductive Color where
  | YELLOW
  | RED
  | GRAY
deriving DecidableEq, Repr

/-- One call of `DebugRenderer::AddLine(start, end, color, depthTest)`. -/
structure DebugLine where
  start : Vector3 F32
  finish : Vector3 F32
  color : Color
  depthTest : Bool
deriving DecidableEq, Repr

/-- A call made on `cameraNode_`. -/
inductive CameraCall where
  | Translate (delta : Vector3 F32)
  | SetDirection (direction : Vector3 F32)
  | Yaw (angle : F32)
  | Pitch (angle : F32)
deriving DecidableEq, Repr

/-- The state of `MyApp` and of the engine objects it drives: the members
`framecount_` and `time_`, the function-local statics `yaw_` and `pitch_` of
`HandleUpdate`, the `Input` flags, whether `engine_->Exit()` was called, the
calls made on `cameraNode_` and the lines handed to the `DebugRenderer`. -/
structure MyApp where
  framecount_ : ℤ
  time_ : F32
  yaw_ : F32
  pitch_ : F32
  input : Input
  exitRequested : Bool
  cameraCalls : List CameraCall
  debugLines : List DebugLine
deriving DecidableEq, Repr

/-- The application once `Start` has run and before any event: the counters
of the constructor, the initial values of the statics (`yaw_ = -120`,
`pitch_ = 20`), no camera call of an event handler and no debug line yet.
The `Input` flags are whatever the engine starts with. -/
def MyApp.started (input : Input) : MyApp :=
  { framecount_ := 0
    time_ := F32.ofInt 0
    yaw_ := F32.ofInt (-120)
    pitch_ := F32.ofInt 20
    input := input
    exitRequested := false
    cameraCalls := []
    debugLines := [] }

/-- What an `E_UPDATE` event and the `Input` subsystem deliver to one call of
`HandleUpdate`. -/
structure UpdateEvent where
  timeStep : F32
  qualifierDown1 : Bool
  keyDownW : Bool
  keyDownS : Bool
  keyDownA : Bool
  keyDownD : Bool
  mouseMove : IntVector2
deriving DecidableEq, Repr

/-! ## `HandleKeyDown` (lines 137-149) -/

/-- The method `MyApp::HandleKeyDown` for the key code `key`. -/
def HandleKeyDown (keys : KeyCodes) (key : ℤ) (app : MyApp) : MyApp :=
  let app := if key = keys.KEY_ESCAPE then { app with exitRequested := true } else app
  if key = keys.KEY_TAB then
    let app := { app with input := { app.input with mouseVisible := !app.input.mouseVisible } }
    { app with input := { app.input with mouseGrabbed := !app.input.mouseGrabbed } }
  else app

/-! ## `HandleUpdate` (lines 159-224) -/

section Colour

variable {α : Type} [Zero α] [One α] [Add α] [Sub α] [Mul α] [LT α] [LE α]
  [DecidableRel (α := α) (· < ·)] [DecidableRel (α := α) (· ≤ ·)]

/-- The colour loop (lines 211-220) over the results from the current index
on, entered with `lineColor = RED`.  It returns the colour at loop exit
together with the nodes on which `TestRaycastOnNodeWithAnimatedModel` was
called, in call order. -/
def colourLoop (E : Engine α) (ray : Ray α) : List (RayQueryResult α) → Color × List (Node α)
  | [] => (Color.RED, [])
  | result :: rest =>
    if result.drawable_.typeName ≠ "AnimatedModel" then (Color.RED, [])
    else if ¬ TestRaycastOnNodeWithAnimatedModel E ray result.node_ then
      (Color.GRAY, [result.node_])
    else
      let tail := colourLoop E ray rest
      (tail.1, result.node_ :: tail.2)

/-- The colour of the debug line (lines 207-221) and the nodes the skinning
test was called on: yellow without results, otherwise what the colour loop
decides. -/
def lineColorAndCalls (E : Engine α) (ray : Ray α) (results : List (RayQueryResult α)) :
    Color × List (Node α) :=
  if results.length ≠ 0 then colourLoop E ray results else (Color.YELLOW, [])

/-- The value of `lineColor` at line 222. -/
def lineColor (E : Engine α) (ray : Ray α) (results : List (RayQueryResult α)) : Color :=
  (lineColorAndCalls E ray results).1

end Colour

/-- Lines 161-179: frame counter, clock and keyboard movement of the
camera.  The counter is kept as an unbounded integer: nothing reads it, and
overflowing the C++ `int` would be undefined behaviour. -/
def moveCamera (ev : UpdateEvent) (app : MyApp) : MyApp :=
  let timeStep := ev.timeStep
  let app := { app with framecount_ := app.framecount_ + 1 }
  let app := { app with time_ := app.time_ + timeStep }
  let MOVE_SPEED := F32.ofInt 20
  let MOVE_SPEED := if ev.qualifierDown1 then MOVE_SPEED * F32.ofInt 10 else MOVE_SPEED
  let translate (x z : ℤ) (app : MyApp) : MyApp :=
    { app with cameraCalls := app.cameraCalls ++
        [CameraCall.Translate
          (((⟨F32.ofInt x, F32.ofInt 0, F32.ofInt z⟩ : Vector3 F32).scale MOVE_SPEED).scale
            timeStep)] }
  let app := if ev.keyDownW then translate 0 1 app else app
  let app := if ev.keyDownS then translate 0 (-1) app else app
  let app := if ev.keyDownA then translate (-1) 0 app else app
  if ev.keyDownD then translate 1 0 app else app

/-- The constant `MOUSE_SENSITIVITY = 0.1f`. -/
def MOUSE_SENSITIVITY : F32 := F32.ofFrac 1 10

/-- Lines 181-194: with the cursor hidden, the mouse motion is added to the
statics `yaw_` and `pitch_`, the pitch is clamped, and the camera rotation
is reset and set again. -/
def lookCamera (ev : UpdateEvent) (app : MyApp) : MyApp :=
  if !app.input.mouseVisible then
    let mouseMove := ev.mouseMove
    let yaw_ := app.yaw_ + MOUSE_SENSITIVITY * F32.ofInt mouseMove.x_
    let pitch_ := app.pitch_ + MOUSE_SENSITIVITY * F32.ofInt mouseMove.y_
    let pitch_ := Clamp pitch_ (F32.ofInt (-90)) (F32.ofInt 90)
    { app with
      yaw_ := yaw_
      pitch_ := pitch_
      cameraCalls := app.cameraCalls ++
        [CameraCall.SetDirection ⟨F32.ofInt 0, F32.ofInt 0, F32.ofInt 1⟩,
         CameraCall.Yaw yaw_, CameraCall.Pitch pitch_] }
  else app

/-- Body of the sweep loop (lines 200-222) at abscissa `x`: one octree
raycast along the ray from `(x, 5, -20)` towards `(x, 5, 20)` and one
`AddLine`. -/
def sweepBody (E : Engine F32) (x : F32) (debugLines : List DebugLine) : List DebugLine :=
  let start : Vector3 F32 := ⟨x, F32.ofFrac 5 1, F32.ofFrac (-20) 1⟩
  let finish : Vector3 F32 := ⟨x, F32.ofFrac 5 1, F32.ofFrac 20 1⟩
  let ray : Ray F32 := ⟨start, E.Normalized (finish - start)⟩
  let results := E.Raycast ray
  debugLines ++ [⟨start, finish, lineColor E ray results, true⟩]

/-- The sweep loop `for (float x = -20; x < 15; x += 0.2f)` (line 198) from
the current `x`, with a bound `fuel` on the iterations still allowed; `none`
when the bound is used up before the loop condition fails. -/
def sweepLoop (E : Engine F32) : ℕ → F32 → List DebugLine → Option (List DebugLine)
  | 0, _, _ => none
  | fuel + 1, x, debugLines =>
    if x < F32.ofInt 15 then
      sweepLoop E fuel (x + F32.ofFrac 2 10) (sweepBody E x debugLines)
    else some debugLines

/-- The method `MyApp::HandleUpdate`, with a bound `fuel` on the iterations
of the sweep loop. -/
def HandleUpdate (E : Engine F32) (fuel : ℕ) (ev : UpdateEvent) (app : MyApp) : Option MyApp :=
  let app := moveCamera ev app
  let app := lookCamera ev app
  (sweepLoop E fuel (F32.ofInt (-20)) app.debugLines).map
    (fun debugLines => { app with debugLines := debugLines })

/-- The abscissae at which the sweep loop runs its body, from the current
`x`, with the same bound on the iterations as `sweepLoop`. -/
def sweepAbscissae : ℕ → F32 → Option (List F32)
  | 0, _ => none
  | fuel + 1, x =>
    if x < F32.ofInt 15 then (sweepAbscissae fuel (x + F32.ofFrac 2 10)).map (fun xs => x :: xs)
    else some []

/-- States the application can be in: the state after `Start`, and every
state reached from a reachable one by a `HandleUpdate` that returns or by a
`HandleKeyDown`. -/
inductive Reachable (keys : KeyCodes) : MyApp → Prop
  | started (input : Input) : Reachable keys (MyApp.started input)
  | update {app app1 : MyApp} (E : Engine F32) (fuel : ℕ) (ev : UpdateEvent) :
      Reachable keys app → HandleUpdate E fuel ev app = some app1 → Reachable keys app1
  | keyDown {app : MyApp} (key : ℤ) :
      Reachable keys app → Reachable keys (HandleKeyDown keys key app)

/-! ## Sample data -/

/-- An engine on an empty scene: no ray hits anything. -/
def emptyEngine : Engine F32 :=
  { Quaternion := Unit
    Decompose := fun _ => (0, (), 0)
    fromTRS := fun pos _ _ => ⟨1, 0, 0, pos.x_, 0, 1, 0, pos.y_, 0, 0, 1, pos.z_⟩
    HitDistance := fun _ _ _ _ _ => ⊤
    Normalized := fun v => v
    Raycast := fun _ => [] }

/-- Key codes of escape and tab. -/
def sampleKeys : KeyCodes := ⟨27, 9⟩

/-- An update event without key presses that moves the mouse by
`(3, 100000)`. -/
def sampleEvent : UpdateEvent :=
  { timeStep := F32.ofFrac 1 60
    qualifierDown1 := false
    keyDownW := false
    keyDownS := false
    keyDownA := false
    keyDownD := false
    mouseMove := ⟨3, 100000⟩ }

/-- An engine whose ray/triangle test hits exactly the vertex buffers in
which some vertex has a positive `z` coordinate, at distance zero, and whose
octree returns the given results for every ray. -/
def sampleEngine (results : List (RayQueryResult F32)) : Engine F32 :=
  { Quaternion := Unit
    Decompose := fun m => (⟨m.m03, m.m13, m.m23⟩, (), ⟨1, 1, 1⟩)
    fromTRS := fun pos _ _ => ⟨1, 0, 0, pos.x_, 0, 1, 0, pos.y_, 0, 0, 1, pos.z_⟩
    HitDistance := fun _ vertices _ _ _ =>
      if vertices.any (fun vertex => decide (0 < vertex.position.z_)) then ((0 : F32) : WithTop F32)
      else ⊤
    Normalized := fun v => v
    Raycast := fun _ => results }

/-- The identity transform. -/
def identityMatrix : Matrix3x4 F32 := ⟨1, 0, 0, 0, 0, 1, 0, 0, 0, 0, 1, 0⟩

/-- A vertex at `(0, 0, 1)` bound with weight one to bone 0. -/
def sampleVertex : Vertex F32 :=
  { position := ⟨0, 0, 1⟩
    blendWeights := fun i => if i = 0 then 1 else 0
    blendIndices := fun _ => 0 }

/-- A geometry of one triangle over three copies of `sampleVertex`. -/
def sampleGeometry : Geometry F32 :=
  { vertices := [sampleVertex, sampleVertex, sampleVertex]
    indexData := [0, 1, 2]
    indexStart := 0
    indexCount := 3 }

/-- A node at the origin whose animated model has one bone and the given
geometries. -/
def sampleNode (geometries : List (Option (Geometry F32))) : Node F32 :=
  { worldPosition := 0
    animatedModel :=
      { model := ⟨geometries⟩
        skeleton := ⟨[⟨"Bone", identityMatrix⟩]⟩ }
    childWorldTransform := fun _ => identityMatrix }

/-- The ray of the sweep at `x = 0`. -/
def sampleRay : Ray F32 := ⟨⟨0, F32.ofInt 5, F32.ofInt (-20)⟩, ⟨0, 0, 1⟩⟩

/-- A static model in front of an animated model whose mesh the ray misses. -/
def blockedResults : List (RayQueryResult F32) :=
  [⟨⟨"StaticModel"⟩, sampleNode []⟩, ⟨⟨"AnimatedModel"⟩, sampleNode [none]⟩]

/-- An animated model whose mesh is hit, in front of one whose mesh is
missed, in front of a static model. -/
def leadingResults : List (RayQueryResult F32) :=
  [⟨⟨"AnimatedModel"⟩, sampleNode [none, some sampleGeometry]⟩,
   ⟨⟨"AnimatedModel"⟩, sampleNode [none]⟩,
   ⟨⟨"StaticModel"⟩, sampleNode []⟩]

/-- Two bone matrices over the rationals: a translation by `(1, 2, 3)` and a
uniform scaling by two. -/
def rationalBones : List (Matrix3x4 ℚ) :=
  [⟨1, 0, 0, 1, 0, 1, 0, 2, 0, 0, 1, 3⟩, ⟨2, 0, 0, 0, 0, 2, 0, 0, 0, 0, 2, 0⟩]

/-- A vertex at `(1, 1, 1)` with influences `(bone 0, 1/2)`, `(bone 1, 1/4)`,
`(bone 7, 1/4)` and `(bone 1, 3/2)`: the third names no bone and the fourth
has a weight above one. -/
def rationalVertex : Vertex ℚ :=
  { position := ⟨1, 1, 1⟩
    blendWeights := fun i => if i = 0 then 1 / 2 else if i = 1 then 1 / 4
      else if i = 2 then 1 / 4 else 3 / 2
    blendIndices := fun i => if i = 0 then 0 else if i = 1 then 1 else if i = 2 then 7 else 1 }

/-- A vertex none of whose influences counts: all weights are zero. -/
def unboundVertex : Vertex ℚ :=
  { position := ⟨1, 1, 1⟩
    blendWeights := fun _ => 0
    blendIndices := fun _ => 0 }

/-- The binary32 translation by `(x, y, z)`. -/
def translation (x y z : Binary32) : Matrix3x4 Binary32 := ⟨1, 0, 0, x, 0, 1, 0, y, 0, 0, 1, z⟩

/-- An engine for rays that point along `+z`: the ray/triangle test hits a
vertex buffer when one of its vertices lies straight ahead of the ray origin
(same `x` and `y`, larger `z`), at the distance of that vertex; matrices are
decomposed into their translation only. -/
def aimEngine : Engine Binary32 :=
  { Quaternion := Unit
    Decompose := fun m => (⟨m.m03, m.m13, m.m23⟩, (), ⟨1, 1, 1⟩)
    fromTRS := fun pos _ _ => translation pos.x_ pos.y_ pos.z_
    HitDistance := fun ray vertices _ _ _ =>
      ((vertices.find? (fun vertex =>
          decide (vertex.position.x_ = ray.origin_.x_) &&
            (decide (vertex.position.y_ = ray.origin_.y_) &&
              decide (ray.origin_.z_ < vertex.position.z_)))).map
        (fun vertex => (((vertex.position.z_ - ray.origin_.z_ : Binary32)) : WithTop Binary32))).getD ⊤
    Normalized := fun v => v
    Raycast := fun _ => [] }

/-- A geometry whose three vertices sit at `(0, 0, 1)` in bind pose, bound
with weight one to bone 0. -/
def posedGeometry : Geometry Binary32 :=
  { vertices := List.replicate 3
      { position := ⟨0, 0, 1⟩
        blendWeights := fun i => if i = 0 then 1 else 0
        blendIndices := fun _ => 0 }
    indexData := [0, 1, 2]
    indexStart := 0
    indexCount := 3 }

/-- A node at `(10, 0, 0)` whose single bone has been animated five units up:
the bone node's world transform is the translation by `(10, 5, 0)`. -/
def posedNode (geometries : List (Option (Geometry Binary32))) : Node Binary32 :=
  { worldPosition := ⟨Binary32.ofFrac 10 1, 0, 0⟩
    animatedModel :=
      { model := ⟨geometries⟩
        skeleton := ⟨[⟨"Bone", translation 0 0 0⟩]⟩ }
    childWorldTransform := fun _ => translation (Binary32.ofFrac 10 1) (Binary32.ofFrac 5 1) 0 }

/-- A ray along `+z` through `(10, 5, 1)`, where the animated mesh is. -/
def posedRay : Ray Binary32 :=
  ⟨⟨Binary32.ofFrac 10 1, Binary32.ofFrac 5 1, Binary32.ofFrac (-20) 1⟩, ⟨0, 0, 1⟩⟩

/-- A ray along `+z` through `(10, 0, 1)`, where the mesh was in bind pose. -/
def bindPoseRay : Ray Binary32 :=
  ⟨⟨Binary32.ofFrac 10 1, 0, Binary32.ofFrac (-20) 1⟩, ⟨0, 0, 1⟩⟩

/-- The binary32 uniform scaling by three. -/
def scaleByThree : Matrix3x4 Binary32 :=
  ⟨Binary32.ofFrac 3 1, 0, 0, 0, 0, Binary32.ofFrac 3 1, 0, 0, 0, 0, Binary32.ofFrac 3 1, 0⟩

/-- A vertex at `(5/7, 0, 0)` (rounded to binary32) bound with weight `0.1f`
to bone 0. -/
def roundingVertex : Vertex Binary32 :=
  { position := ⟨Binary32.ofFrac 5 7, 0, 0⟩
    blendWeights := fun i => if i = 0 then Binary32.ofFrac 1 10 else 0
    blendIndices := fun _ => 0 }

/-- A vertex at `(1, 1, 1)` whose first weight is a NaN and whose other
weights are zero. -/
def nanVertex : Vertex Binary32 :=
  { position := ⟨1, 1, 1⟩
    blendWeights := fun i => if i = 0 then Binary32.nan else 0
    blendIndices := fun _ => 0 }

/-- A vertex at `(1, 1, 1)` with four zero weights. -/
def restVertex : Vertex Binary32 :=
  { position := ⟨1, 1, 1⟩
    blendWeights := fun _ => 0
    blendIndices := fun _ => 0 }

/-! ## The blend formula -/

section Formula

variable {α : Type} [Zero α] [Add α] [Mul α] [LT α] [LE α] [One α]

/-- An influence counts when its bone index is below the number of bones and
its weight lies in `(0, 1]`. -/
def influenceCounts (matricesOfBones : List (Matrix3x4 α)) (vertex : Vertex α) (i : Fin 4) :
    Prop :=
  (vertex.blendIndices i).val < matricesOfBones.length ∧
    0 < vertex.blendWeights i ∧ vertex.blendWeights i ≤ 1

instance (matricesOfBones : List (Matrix3x4 α)) (vertex : Vertex α)
    [DecidableRel (α := α) (· < ·)] [DecidableRel (α := α) (· ≤ ·)] :
    DecidablePred (influenceCounts matricesOfBones vertex) :=
  fun _ => inferInstanceAs (Decidable (_ ∧ _ ∧ _))

/-- The term of the blend formula for influence `i`: the weight times the
bone matrix of the stored index applied, as an affine transform, to the base
position (zero when the index names no bone). -/
def weightedBonePosition (matricesOfBones : List (Matrix3x4 α)) (vertex : Vertex α)
    (i : Fin 4) : Vector3 α :=
  ((matricesOfBones.get? (vertex.blendIndices i).val).map
    (fun m => (m.mulVec vertex.position).scale (vertex.blendWeights i))).getD 0

end Formula

/-- Component-wise addition makes the vectors over a commutative additive
monoid one as well, so that finite sums of vectors are defined. -/
instance {α : Type} [AddCommMonoid α] : AddCommMonoid (Vector3 α) where
  add_assoc a b c := by
    show Vector3.mk _ _ _ = Vector3.mk _ _ _
    simp only [HAdd.hAdd, Add.add, Vector3.mk.injEq]
    exact ⟨add_assoc _ _ _, add_assoc _ _ _, add_assoc _ _ _⟩
  zero_add a := by
    show Vector3.mk _ _ _ = a
    cases a
    simp only [Vector3.mk.injEq]
    exact ⟨zero_add _, zero_add _, zero_add _⟩
  add_zero a := by
    show Vector3.mk _ _ _ = a
    cases a
    simp only [Vector3.mk.injEq]
    exact ⟨add_zero _, add_zero _, add_zero _⟩
  add_comm a b := by
    show Vector3.mk _ _ _ = Vector3.mk _ _ _
    simp only [Vector3.mk.injEq]
    exact ⟨add_comm _ _, add_comm _ _, add_comm _ _⟩
  nsmul := nsmulRec

/-- The blend formula: the sum, over the influences that count, of the
weighted bone positions. -/
def blendFormula {α : Type} [LinearOrderedCommRing α] (matricesOfBones : List (Matrix3x4 α))
    (vertex : Vertex α) : Vector3 α :=
  ∑ i in Finset.univ.filter (influenceCounts matricesOfBones vertex),
    weightedBonePosition matricesOfBones vertex i

/-! ## Theorems -/

set_option maxRecDepth 1000000

/-! ### binary32 rounding -/

/-- The rounded quotient is within one half of the exact quotient. -/
theorem F32.roundFrac_nearest (p d : ℕ) (hd : 0 < d) :
    2 * (F32.roundFrac p d * d) ≤ 2 * p + d ∧ 2 * p ≤ 2 * (F32.roundFrac p d * d) + d := by
  have hdm := Nat.div_add_mod p d
  have hlt := Nat.mod_lt p hd
  have hmul : (p / d + 1) * d = d * (p / d) + d := by ring
  have hmul0 : p / d * d = d * (p / d) := by ring
  unfold F32.roundFrac
  simp only []
  split
  · rw [hmul0]
    omega
  · split
    · rw [hmul]
      omega
    · split
      · rw [hmul0]
        omega
      · rw [hmul]
        omega

/-- A quotient exactly half way between two integers is rounded to the even
one. -/
theorem F32.roundFrac_tie_even (p d : ℕ) (h : 2 * (p % d) = d) : F32.roundFrac p d % 2 = 0 := by
  unfold F32.roundFrac
  simp only []
  rw [if_neg (by omega), if_neg (by omega)]
  split
  · assumption
  · omega

theorem F32.excessBits_fits (fuel f : ℕ) (h : f < 2 ^ 24 * 2 ^ fuel) :
    f / 2 ^ F32.excessBits fuel f < 2 ^ 24 := by
  induction fuel generalizing f with
  | zero =>
    simp only [F32.excessBits, pow_zero, Nat.div_one]
    simpa using h
  | succ fuel ih =>
    unfold F32.excessBits
    split
    · simpa using ‹f < 2 ^ 24›
    · have h2 : f / 2 < 2 ^ 24 * 2 ^ fuel := by
        rw [pow_succ] at h
        omega
      have := ih (f / 2) h2
      rwa [pow_succ, mul_comm, ← Nat.div_div_eq_div_mul]

theorem F32.excessBits_full (fuel f : ℕ) (h : F32.excessBits fuel f ≠ 0) :
    2 ^ 23 ≤ f / 2 ^ F32.excessBits fuel f := by
  induction fuel generalizing f with
  | zero => simp [F32.excessBits] at h
  | succ fuel ih =>
    unfold F32.excessBits at h ⊢
    split
    · rename_i hf
      rw [if_pos hf] at h
      exact absurd rfl h
    · rename_i hf
      have e : f / 2 ^ (F32.excessBits fuel (f / 2) + 1) =
          f / 2 / 2 ^ F32.excessBits fuel (f / 2) := by
        rw [Nat.div_div_eq_div_mul]
        congr 1
        ring
      rw [e]
      by_cases h0 : F32.excessBits fuel (f / 2) = 0
      · rw [h0]
        simp only [pow_zero, Nat.div_one]
        omega
      · exact ih (f / 2) h0

/-- The rounded magnitude has a significand of at most 24 bits: it is
`m · 2 ^ shift` with `m ≤ 2 ^ 24`, and `m ≥ 2 ^ 23` once `shift` is positive. -/
theorem F32.roundMag_significand (p d : ℕ) :
    ∃ m shift, F32.roundMag p d = m * 2 ^ shift ∧ m ≤ 2 ^ 24 ∧ (shift ≠ 0 → 2 ^ 23 ≤ m) := by
  refine ⟨F32.roundFrac p (d * 2 ^ F32.excessBits (p / d) (p / d)),
    F32.excessBits (p / d) (p / d), rfl, ?_, ?_⟩
  · have hfit := F32.excessBits_fits (p / d) (p / d)
      (lt_of_lt_of_le (Nat.lt_two_pow (p / d)) (Nat.le_mul_of_pos_left _ (by positivity)))
    rw [Nat.div_div_eq_div_mul] at hfit
    have hle : F32.roundFrac p (d * 2 ^ F32.excessBits (p / d) (p / d)) ≤
        p / (d * 2 ^ F32.excessBits (p / d) (p / d)) + 1 := by
      unfold F32.roundFrac
      simp only []
      repeat' split
      all_goals omega
    omega
  · intro hs
    have hfull := F32.excessBits_full (p / d) (p / d) hs
    rw [Nat.div_div_eq_div_mul] at hfull
    have hge : p / (d * 2 ^ F32.excessBits (p / d) (p / d)) ≤
        F32.roundFrac p (d * 2 ^ F32.excessBits (p / d) (p / d)) := by
      unfold F32.roundFrac
      simp only []
      repeat' split
      all_goals omega
    omega

/-- The rounded magnitude is within half a unit in the last place of the
exact quotient `p / d`. -/
theorem F32.roundMag_nearest (p d : ℕ) (hd : 0 < d) :
    2 * (F32.roundMag p d * d) ≤ 2 * p + d * 2 ^ F32.excessBits (p / d) (p / d) ∧
      2 * p ≤ 2 * (F32.roundMag p d * d) + d * 2 ^ F32.excessBits (p / d) (p / d) := by
  have h := F32.roundFrac_nearest p (d * 2 ^ F32.excessBits (p / d) (p / d)) (by positivity)
  have e : F32.roundMag p d * d =
      F32.roundFrac p (d * 2 ^ F32.excessBits (p / d) (p / d)) *
        (d * 2 ^ F32.excessBits (p / d) (p / d)) := by
    unfold F32.roundMag
    simp only []
    ring
  rw [e]
  exact h

/-! ### binary32 samples -/

/-- The literal `0.2f` is `13421773 · 2⁻²⁶` (bit pattern `0x3E4CCCCD`),
slightly above one fifth. -/
theorem F32.units_two_tenths :
    (F32.ofFrac 2 10).units = 13421773 * ((2 ^ 123 : ℕ) : ℤ) := by
  decide

/-- The loop bounds `-20` and `15` are represented exactly. -/
theorem F32.units_sweep_bounds :
    (F32.ofInt (-20)).units = -20 * ((2 ^ 149 : ℕ) : ℤ) ∧
      (F32.ofInt 15).units = 15 * ((2 ^ 149 : ℕ) : ℤ) := by
  decide

/-- Integers beyond 24 bits are rounded to nearest, ties to even. -/
theorem F32.ofInt_ties_to_even :
    F32.ofInt 16777217 = F32.ofInt 16777216 ∧ F32.ofInt 16777219 = F32.ofInt 16777220 := by
  decide

/-- The first step of the sweep: `-20 + 0.2f` rounds to `-5190451 · 2⁻¹⁸`. -/
theorem F32.first_sweep_step :
    (F32.ofInt (-20) + F32.ofFrac 2 10).units = -5190451 * ((2 ^ 131 : ℕ) : ℤ) := by
  decide

/-! ### The sweep loop -/

theorem sweepBody_line (E : Engine F32) (x : F32) (debugLines : List DebugLine) :
    sweepBody E x debugLines = debugLines ++
      [⟨⟨x, F32.ofFrac 5 1, F32.ofFrac (-20) 1⟩, ⟨x, F32.ofFrac 5 1, F32.ofFrac 20 1⟩,
        lineColor E
          ⟨⟨x, F32.ofFrac 5 1, F32.ofFrac (-20) 1⟩,
            E.Normalized ((⟨x, F32.ofFrac 5 1, F32.ofFrac 20 1⟩ : Vector3 F32) -
              ⟨x, F32.ofFrac 5 1, F32.ofFrac (-20) 1⟩)⟩
          (E.Raycast
            ⟨⟨x, F32.ofFrac 5 1, F32.ofFrac (-20) 1⟩,
              E.Normalized ((⟨x, F32.ofFrac 5 1, F32.ofFrac 20 1⟩ : Vector3 F32) -
                ⟨x, F32.ofFrac 5 1, F32.ofFrac (-20) 1⟩)⟩),
        true⟩] :=
  rfl

/-- The last abscissa of the sweep, reached after 175 additions of `0.2f`,
is `15728634 · 2⁻²⁰ = 14.99999427...`, still below 15. -/
theorem sweepAbscissae_last :
    (sweepAbscissae 177 (F32.ofInt (-20))).map (fun xs => xs.getLast?.map (fun x => x.units)) =
      some (some (15728634 * ((2 ^ 129 : ℕ) : ℤ))) := by
  decide

theorem sweepLoop_eq_fold (E : Engine F32) (fuel : ℕ) (x : F32) (debugLines : List DebugLine) :
    sweepLoop E fuel x debugLines =
      (sweepAbscissae fuel x).map
        (fun xs => xs.foldl (fun lines x => sweepBody E x lines) debugLines) := by
  induction fuel generalizing x debugLines with
  | zero => rfl
  | succ fuel ih =>
    simp only [sweepLoop, sweepAbscissae]
    split
    · rw [ih]
      cases sweepAbscissae fuel (x + F32.ofFrac 2 10) <;> simp
    · simp

theorem sweepAbscissae_mono (fuel extra : ℕ) (x : F32) (xs : List F32)
    (h : sweepAbscissae fuel x = some xs) : sweepAbscissae (fuel + extra) x = some xs := by
  induction fuel generalizing x xs with
  | zero => simp [sweepAbscissae] at h
  | succ fuel ih =>
    rw [Nat.add_right_comm]
    simp only [sweepAbscissae] at h ⊢
    split
    · rename_i hx
      rw [if_pos hx] at h
      cases hrec : sweepAbscissae fuel (x + F32.ofFrac 2 10) with
      | none => simp [hrec] at h
      | some ys =>
        rw [ih _ _ hrec]
        simpa [hrec] using h
    · rename_i hx
      rw [if_neg hx] at h
      exact h

theorem sweepBody_fold_length (E : Engine F32) (xs : List F32) (debugLines : List DebugLine) :
    (xs.foldl (fun lines x => sweepBody E x lines) debugLines).length =
      debugLines.length + xs.length := by
  induction xs generalizing debugLines with
  | nil => simp
  | cons x xs ih =>
    simp only [List.foldl_cons, List.length_cons]
    rw [ih]
    simp [sweepBody]
    omega

theorem sweepAbscissae_length :
    (sweepAbscissae 177 (F32.ofInt (-20))).map List.length = some 176 := by
  decide

theorem sweepAbscissae_exists (fuel : ℕ) (h : 177 ≤ fuel) :
    ∃ xs, sweepAbscissae fuel (F32.ofInt (-20)) = some xs ∧ xs.length = 176 := by
  have h0 := sweepAbscissae_length
  cases hxs : sweepAbscissae 177 (F32.ofInt (-20)) with
  | none => simp [hxs] at h0
  | some xs =>
    refine ⟨xs, ?_, by simpa [hxs] using h0⟩
    have := sweepAbscissae_mono 177 (fuel - 177) _ _ hxs
    rwa [Nat.add_sub_cancel' h] at this

theorem moveCamera_debugLines (ev : UpdateEvent) (app : MyApp) :
    (moveCamera ev app).debugLines = app.debugLines := by
  unfold moveCamera
  simp only []
  repeat' split
  all_goals rfl

theorem lookCamera_debugLines (ev : UpdateEvent) (app : MyApp) :
    (lookCamera ev app).debugLines = app.debugLines := by
  unfold lookCamera
  split <;> rfl

theorem HandleUpdate_debugLines (E : Engine F32) (fuel : ℕ) (ev : UpdateEvent) (app : MyApp)
    (xs : List F32) (h : sweepAbscissae fuel (F32.ofInt (-20)) = some xs) :
    ∃ app1, HandleUpdate E fuel ev app = some app1 ∧
      app1.debugLines = xs.foldl (fun lines x => sweepBody E x lines) app.debugLines := by
  simp only [HandleUpdate, sweepLoop_eq_fold, h, Option.map_some', lookCamera_debugLines,
    moveCamera_debugLines]
  exact ⟨_, rfl, rfl⟩

/-- C4 (amended): every call of `HandleUpdate` returns as soon as the sweep is
allowed 177 evaluations of its loop condition, and it then has run the body
of the sweep (one raycast and one `AddLine`) exactly 176 times: under
binary32 arithmetic the accumulated `x` is still below 15 after 175 steps of
`0.2f`.  The call adds exactly 176 debug lines. -/
theorem HandleUpdate_adds_176_lines (E : Engine F32) (fuel : ℕ) (ev : UpdateEvent)
    (app : MyApp) (h : 177 ≤ fuel) :
    ∃ (app1 : MyApp) (xs : List F32), HandleUpdate E fuel ev app = some app1 ∧
      xs.length = 176 ∧
      app1.debugLines = xs.foldl (fun lines x => sweepBody E x lines) app.debugLines ∧
      app1.debugLines.length = app.debugLines.length + 176 := by
  obtain ⟨xs, hxs, hlen⟩ := sweepAbscissae_exists fuel h
  obtain ⟨app1, happ, hlines⟩ := HandleUpdate_debugLines E fuel ev app xs hxs
  refine ⟨app1, xs, happ, hlen, hlines, ?_⟩
  rw [hlines, sweepBody_fold_length, hlen]

theorem HandleUpdate_adds_176_lines_witness :
    177 ≤ 177 ∧ ∃ (app1 : MyApp) (xs : List F32),
      HandleUpdate emptyEngine 177 sampleEvent (MyApp.started ⟨false, false⟩) = some app1 ∧
      xs.length = 176 ∧
      app1.debugLines =
        xs.foldl (fun lines x => sweepBody emptyEngine x lines)
          (MyApp.started ⟨false, false⟩).debugLines ∧
      app1.debugLines.length = (MyApp.started ⟨false, false⟩).debugLines.length + 176 :=
  ⟨by decide,
    HandleUpdate_adds_176_lines emptyEngine 177 sampleEvent (MyApp.started ⟨false, false⟩)
      (by decide)⟩

/-- C4 (counterexample): on the empty scene, the first `HandleUpdate` after
`Start` returns with 176 debug lines, not with the 175 of the claim. -/
theorem HandleUpdate_not_175_lines :
    ∃ app1, HandleUpdate emptyEngine 177 sampleEvent (MyApp.started ⟨false, false⟩) = some app1 ∧
      app1.debugLines.length = 176 ∧
      app1.debugLines.length ≠ (MyApp.started ⟨false, false⟩).debugLines.length + 175 := by
  obtain ⟨xs, hxs, hlen⟩ := sweepAbscissae_exists 177 (le_refl _)
  obtain ⟨app1, happ, hlines⟩ :=
    HandleUpdate_debugLines emptyEngine 177 sampleEvent (MyApp.started ⟨false, false⟩) xs hxs
  have hl : app1.debugLines.length = 176 := by
    rw [hlines, sweepBody_fold_length, hlen]
    simp [MyApp.started]
  refine ⟨app1, happ, hl, ?_⟩
  rw [hl]
  simp [MyApp.started]

/-! ### The pitch -/

theorem F32.toRat_le_toRat {a b : F32} (h : a ≤ b) : a.toRat ≤ b.toRat := by
  have hu : a.units ≤ b.units := h
  unfold F32.toRat
  apply div_le_div_of_nonneg_right
  · exact_mod_cast hu
  · positivity

theorem F32.units_ofInt_neg90 : (F32.ofInt (-90)).units = -90 * ((2 ^ 149 : ℕ) : ℤ) := by
  decide

theorem F32.units_ofInt_90 : (F32.ofInt 90).units = 90 * ((2 ^ 149 : ℕ) : ℤ) := by
  decide

theorem F32.units_ofInt_20 : (F32.ofInt 20).units = 20 * ((2 ^ 149 : ℕ) : ℤ) := by
  decide

theorem F32.toRat_of_units (a : F32) (k : ℤ) (h : a.units = k * ((2 ^ 149 : ℕ) : ℤ)) :
    a.toRat = k := by
  unfold F32.toRat
  rw [h]
  push_cast
  field_simp

theorem Clamp_F32_bounds (value : F32) :
    F32.ofInt (-90) ≤ Clamp value (F32.ofInt (-90)) (F32.ofInt 90) ∧
      Clamp value (F32.ofInt (-90)) (F32.ofInt 90) ≤ F32.ofInt 90 := by
  have hlo := F32.units_ofInt_neg90
  have hhi := F32.units_ofInt_90
  unfold Clamp
  split
  · rename_i h
    constructor
    · show (F32.ofInt (-90)).units ≤ (F32.ofInt (-90)).units
      exact le_refl _
    · show (F32.ofInt (-90)).units ≤ (F32.ofInt 90).units
      rw [hlo, hhi]
      norm_num
  · rename_i h
    have h1 : ¬ value.units < (F32.ofInt (-90)).units := h
    split
    · constructor
      · show (F32.ofInt (-90)).units ≤ (F32.ofInt 90).units
        rw [hlo, hhi]
        norm_num
      · show (F32.ofInt 90).units ≤ (F32.ofInt 90).units
        exact le_refl _
    · rename_i h'
      have h2 : ¬ (F32.ofInt 90).units < value.units := h'
      constructor
      · show (F32.ofInt (-90)).units ≤ value.units
        omega
      · show value.units ≤ (F32.ofInt 90).units
        omega

theorem pitch_in_range_of_le {p : F32} (h : F32.ofInt (-90) ≤ p ∧ p ≤ F32.ofInt 90) :
    (-90 : ℚ) ≤ p.toRat ∧ p.toRat ≤ 90 := by
  have hlo := F32.toRat_of_units _ _ F32.units_ofInt_neg90
  have hhi := F32.toRat_of_units _ _ F32.units_ofInt_90
  have h1 := F32.toRat_le_toRat h.1
  have h2 := F32.toRat_le_toRat h.2
  rw [hlo] at h1
  rw [hhi] at h2
  constructor
  · exact_mod_cast h1
  · exact_mod_cast h2

theorem moveCamera_pitch (ev : UpdateEvent) (app : MyApp) :
    (moveCamera ev app).pitch_ = app.pitch_ ∧ (moveCamera ev app).input = app.input := by
  unfold moveCamera
  simp only []
  repeat' split
  all_goals exact ⟨rfl, rfl⟩

theorem HandleUpdate_pitch (E : Engine F32) (fuel : ℕ) (ev : UpdateEvent) (app app1 : MyApp)
    (h : HandleUpdate E fuel ev app = some app1) :
    app1.pitch_ = (lookCamera ev (moveCamera ev app)).pitch_ := by
  unfold HandleUpdate at h
  simp only [] at h
  cases hs : sweepLoop E fuel (F32.ofInt (-20)) (lookCamera ev (moveCamera ev app)).debugLines with
  | none => simp [hs] at h
  | some lines =>
    simp [hs] at h
    rw [← h]

theorem lookCamera_pitch_hidden (ev : UpdateEvent) (app : MyApp)
    (h : app.input.mouseVisible = false) :
    (lookCamera ev app).pitch_ =
      Clamp (app.pitch_ + MOUSE_SENSITIVITY * F32.ofInt ev.mouseMove.y_)
        (F32.ofInt (-90)) (F32.ofInt 90) := by
  simp [lookCamera, h]

theorem lookCamera_pitch_visible (ev : UpdateEvent) (app : MyApp)
    (h : app.input.mouseVisible = true) : (lookCamera ev app).pitch_ = app.pitch_ := by
  simp [lookCamera, h]

theorem HandleUpdate_pitch_bounds (E : Engine F32) (fuel : ℕ) (ev : UpdateEvent)
    (app app1 : MyApp) (h : HandleUpdate E fuel ev app = some app1)
    (hinv : app.input.mouseVisible = true → F32.ofInt (-90) ≤ app.pitch_ ∧ app.pitch_ ≤ F32.ofInt 90) :
    F32.ofInt (-90) ≤ app1.pitch_ ∧ app1.pitch_ ≤ F32.ofInt 90 := by
  rw [HandleUpdate_pitch E fuel ev app app1 h]
  have hm := moveCamera_pitch ev app
  cases hv : app.input.mouseVisible with
  | false =>
    rw [lookCamera_pitch_hidden ev _ (by rw [hm.2]; exact hv)]
    exact Clamp_F32_bounds _
  | true =>
    rw [lookCamera_pitch_visible ev _ (by rw [hm.2]; exact hv), hm.1]
    exact hinv hv

theorem HandleKeyDown_pitch (keys : KeyCodes) (key : ℤ) (app : MyApp) :
    (HandleKeyDown keys key app).pitch_ = app.pitch_ := by
  unfold HandleKeyDown
  simp only []
  repeat' split
  all_goals rfl

theorem Reachable_pitch_le (keys : KeyCodes) (app : MyApp) (h : Reachable keys app) :
    F32.ofInt (-90) ≤ app.pitch_ ∧ app.pitch_ ≤ F32.ofInt 90 := by
  induction h with
  | started input =>
    constructor
    · show (F32.ofInt (-90)).units ≤ (F32.ofInt 20).units
      rw [F32.units_ofInt_neg90, F32.units_ofInt_20]
      norm_num
    · show (F32.ofInt 20).units ≤ (F32.ofInt 90).units
      rw [F32.units_ofInt_90, F32.units_ofInt_20]
      norm_num
  | update E fuel ev _ hstep ih => exact HandleUpdate_pitch_bounds E fuel ev _ _ hstep (fun _ => ih)
  | keyDown key _ ih =>
    rw [HandleKeyDown_pitch]
    exact ih

/-- C5: the pitch is clamped between -90 and 90 degrees.  Whatever the stored
pitch and the mouse movement, a `HandleUpdate` that runs with the cursor
hidden leaves `-90 ≤ pitch_ ≤ 90`; and `-90 ≤ pitch_ ≤ 90` holds in every
reachable state of the application (`pitch_` starts at 20 and is left alone
while the cursor is visible). -/
theorem pitch_clamped :
    (∀ (E : Engine F32) (fuel : ℕ) (ev : UpdateEvent) (app app1 : MyApp),
        app.input.mouseVisible = false → HandleUpdate E fuel ev app = some app1 →
        (-90 : ℚ) ≤ app1.pitch_.toRat ∧ app1.pitch_.toRat ≤ 90) ∧
    (∀ (keys : KeyCodes) (app : MyApp), Reachable keys app →
        (-90 : ℚ) ≤ app.pitch_.toRat ∧ app.pitch_.toRat ≤ 90) := by
  constructor
  · intro E fuel ev app app1 hv hstep
    apply pitch_in_range_of_le
    apply HandleUpdate_pitch_bounds E fuel ev app app1 hstep
    intro hv'
    rw [hv] at hv'
    cases hv'
  · intro keys app h
    exact pitch_in_range_of_le (Reachable_pitch_le keys app h)

theorem pitch_clamped_witness :
    (∃ app1 : MyApp, (MyApp.started ⟨false, false⟩).input.mouseVisible = false ∧
        HandleUpdate emptyEngine 177 sampleEvent (MyApp.started ⟨false, false⟩) = some app1 ∧
        app1.pitch_ = F32.ofInt 90 ∧
        (-90 : ℚ) ≤ app1.pitch_.toRat ∧ app1.pitch_.toRat ≤ 90) ∧
    (Reachable sampleKeys (HandleKeyDown sampleKeys 9 (MyApp.started ⟨true, false⟩)) ∧
        (-90 : ℚ) ≤ (HandleKeyDown sampleKeys 9 (MyApp.started ⟨true, false⟩)).pitch_.toRat ∧
        (HandleKeyDown sampleKeys 9 (MyApp.started ⟨true, false⟩)).pitch_.toRat ≤ 90) := by
  constructor
  · obtain ⟨xs, hxs, _⟩ := sweepAbscissae_exists 177 (le_refl _)
    obtain ⟨app1, happ, _⟩ :=
      HandleUpdate_debugLines emptyEngine 177 sampleEvent (MyApp.started ⟨false, false⟩) xs hxs
    refine ⟨app1, rfl, happ, ?_, pitch_clamped.1 emptyEngine 177 sampleEvent _ app1 rfl happ⟩
    rw [HandleUpdate_pitch _ _ _ _ _ happ]
    decide
  · have hr : Reachable sampleKeys (HandleKeyDown sampleKeys 9 (MyApp.started ⟨true, false⟩)) :=
      Reachable.keyDown 9 (Reachable.started _)
    exact ⟨hr, pitch_clamped.2 sampleKeys _ hr⟩

/-! ### The Tab key -/

/-- C6: `HandleKeyDown` toggles the mouse cursor on Tab.  A key-down event
whose key is `KEY_TAB` negates the mouse-visible flag and the mouse-grabbed
flag, so that two consecutive Tab presses restore both flags; a key-down
event with any other key leaves both flags unchanged. -/
theorem HandleKeyDown_tab_toggles (keys : KeyCodes) (key : ℤ) (app : MyApp) :
    (key = keys.KEY_TAB →
      (HandleKeyDown keys key app).input.mouseVisible = !app.input.mouseVisible ∧
      (HandleKeyDown keys key app).input.mouseGrabbed = !app.input.mouseGrabbed ∧
      (HandleKeyDown keys key (HandleKeyDown keys key app)).input = app.input) ∧
    (key ≠ keys.KEY_TAB →
      (HandleKeyDown keys key app).input.mouseVisible = app.input.mouseVisible ∧
      (HandleKeyDown keys key app).input.mouseGrabbed = app.input.mouseGrabbed) := by
  constructor
  · intro h
    subst h
    unfold HandleKeyDown
    by_cases he : keys.KEY_TAB = keys.KEY_ESCAPE
    · simp [he]
    · simp [he]
  · intro h
    unfold HandleKeyDown
    rw [if_neg h]
    split <;> exact ⟨rfl, rfl⟩

theorem HandleKeyDown_tab_toggles_witness :
    ((9 : ℤ) = sampleKeys.KEY_TAB ∧
      (HandleKeyDown sampleKeys 9 (MyApp.started ⟨true, false⟩)).input.mouseVisible
        = !(MyApp.started ⟨true, false⟩).input.mouseVisible ∧
      (HandleKeyDown sampleKeys 9 (MyApp.started ⟨true, false⟩)).input.mouseGrabbed
        = !(MyApp.started ⟨true, false⟩).input.mouseGrabbed ∧
      (HandleKeyDown sampleKeys 9
        (HandleKeyDown sampleKeys 9 (MyApp.started ⟨true, false⟩))).input
        = (MyApp.started ⟨true, false⟩).input) ∧
    ((27 : ℤ) ≠ sampleKeys.KEY_TAB ∧
      (HandleKeyDown sampleKeys 27 (MyApp.started ⟨true, false⟩)).input.mouseVisible
        = (MyApp.started ⟨true, false⟩).input.mouseVisible ∧
      (HandleKeyDown sampleKeys 27 (MyApp.started ⟨true, false⟩)).input.mouseGrabbed
        = (MyApp.started ⟨true, false⟩).input.mouseGrabbed) :=
  ⟨⟨by decide,
      (HandleKeyDown_tab_toggles sampleKeys 9 (MyApp.started ⟨true, false⟩)).1 (by decide)⟩,
    ⟨by decide,
      (HandleKeyDown_tab_toggles sampleKeys 27 (MyApp.started ⟨true, false⟩)).2 (by decide)⟩⟩

/-! ### The skinning test -/

theorem geometryLoop_true_iff {α : Type} [Zero α] [One α] [Add α] [Mul α] [LT α] [LE α]
    [DecidableRel (α := α) (· < ·)] [DecidableRel (α := α) (· ≤ ·)]
    (E : Engine α) (localRay : Ray α)
    (matricesOfBones : List (Matrix3x4 α)) (model : Model α) (remaining g : ℕ) :
    geometryLoop E localRay matricesOfBones model remaining g = true ↔
      ∃ k, g ≤ k ∧ k < g + remaining ∧ ∃ geometry, model.GetGeometry k = some geometry ∧
        distanceToGeometry E localRay matricesOfBones geometry < M_INFINITY := by
  induction remaining generalizing g with
  | zero =>
    simp only [geometryLoop, Bool.false_eq_true, false_iff]
    rintro ⟨k, h1, h2, _⟩
    omega
  | succ remaining ih =>
    have hrec := ih (g + 1)
    unfold geometryLoop
    cases hg : model.GetGeometry g with
    | none =>
      simp only []
      rw [hrec]
      constructor
      · rintro ⟨k, h1, h2, h3⟩
        exact ⟨k, by omega, by omega, h3⟩
      · rintro ⟨k, h1, h2, geometry, h3, h4⟩
        have hk : k ≠ g := by
          intro hk
          rw [hk, hg] at h3
          cases h3
        exact ⟨k, by omega, by omega, geometry, h3, h4⟩
    | some geometry0 =>
      simp only []
      by_cases hd : distanceToGeometry E localRay matricesOfBones geometry0 < M_INFINITY
      · rw [if_pos hd]
        simp only [true_iff]
        exact ⟨g, le_refl _, by omega, geometry0, hg, hd⟩
      · rw [if_neg hd, hrec]
        constructor
        · rintro ⟨k, h1, h2, h3⟩
          exact ⟨k, by omega, by omega, h3⟩
        · rintro ⟨k, h1, h2, geometry, h3, h4⟩
          have hk : k ≠ g := by
            intro hk
            rw [hk, hg] at h3
            cases h3
            exact hd h4
          exact ⟨k, by omega, by omega, geometry, h3, h4⟩

theorem skinningTest_iff_loop {α : Type} [Zero α] [One α] [Add α]
    [Sub α] [Mul α] [LT α] [LE α] [DecidableRel (α := α) (· < ·)]
    [DecidableRel (α := α) (· ≤ ·)] (E : Engine α) (ray : Ray α) (node : Node α) :
    TestRaycastOnNodeWithAnimatedModel E ray node = true ↔
      node.animatedModel.skeleton.GetNumBones = 0 ∨
      ∃ g, g < node.animatedModel.model.GetNumGeometries ∧
        ∃ geometry, node.animatedModel.model.GetGeometry g = some geometry ∧
          E.HitDistance (localRayOf ray node)
            (skinVertices (matricesOfBonesOf E node) geometry.vertices)
            geometry.indexData geometry.indexStart geometry.indexCount < ⊤ := by
  unfold TestRaycastOnNodeWithAnimatedModel
  simp only []
  by_cases hb : node.animatedModel.skeleton.GetNumBones = 0
  · simp [hb]
  · rw [if_neg hb, geometryLoop_true_iff]
    simp only [hb, false_or, zero_add, distanceToGeometry, M_INFINITY]
    constructor
    · rintro ⟨k, _, h2, h3⟩
      exact ⟨k, h2, h3⟩
    · rintro ⟨k, h2, h3⟩
      exact ⟨k, Nat.zero_le _, h2, h3⟩

theorem blendInfluence_explicit {α : Type} [Zero α] [One α] [Add α] [Mul α] [LT α] [LE α]
    [DecidableRel (α := α) (· < ·)] [DecidableRel (α := α) (· ≤ ·)]
    (matricesOfBones : List (Matrix3x4 α)) (ptrWeights : Fin 4 → α)
    (ptrIndices : Fin 4 → Fin 256) (baseVertex animatedVertex : Vector3 α) (i : Fin 4) :
    blendInfluence matricesOfBones ptrWeights ptrIndices baseVertex animatedVertex i =
      if (ptrIndices i).val < matricesOfBones.length ∧
          ¬ (ptrWeights i ≤ 0 ∨ 1 < ptrWeights i) then
        animatedVertex + ((matricesOfBones.get? (ptrIndices i).val).map
          (fun m => (m.scale (ptrWeights i)).mulVec baseVertex)).getD 0
      else animatedVertex := by
  unfold blendInfluence
  simp only []
  split
  · rename_i h
    rw [if_neg (fun hc => absurd hc.1 (by omega))]
  · rename_i h
    have hlt : (ptrIndices i).val < matricesOfBones.length := by omega
    split
    · rename_i hw
      rw [if_neg (fun hc => hc.2 hw)]
    · rename_i hw
      rw [if_pos ⟨hlt, hw⟩, List.get?_eq_get hlt]
      rfl

theorem skinVertices_explicit {α : Type} [Zero α] [One α] [Add α] [Mul α] [LT α] [LE α]
    [DecidableRel (α := α) (· < ·)] [DecidableRel (α := α) (· ≤ ·)]
    (matricesOfBones : List (Matrix3x4 α)) (dataOfVertices : List (Vertex α)) :
    skinVertices matricesOfBones dataOfVertices =
      dataOfVertices.map (fun vertex =>
        { vertex with position :=
            ([0, 1, 2, 3] : List (Fin 4)).foldl (fun animatedVertex i =>
              if (vertex.blendIndices i).val < matricesOfBones.length ∧
                  ¬ (vertex.blendWeights i ≤ 0 ∨ 1 < vertex.blendWeights i) then
                animatedVertex + ((matricesOfBones.get? (vertex.blendIndices i).val).map
                  (fun m => (m.scale (vertex.blendWeights i)).mulVec vertex.position)).getD 0
              else animatedVertex) 0 }) := by
  unfold skinVertices
  congr 1
  funext vertex
  unfold skinVertex
  have hstep : blendInfluence matricesOfBones vertex.blendWeights vertex.blendIndices
      vertex.position = fun animatedVertex i =>
        if (vertex.blendIndices i).val < matricesOfBones.length ∧
            ¬ (vertex.blendWeights i ≤ 0 ∨ 1 < vertex.blendWeights i) then
          animatedVertex + ((matricesOfBones.get? (vertex.blendIndices i).val).map
            (fun m => (m.scale (vertex.blendWeights i)).mulVec vertex.position)).getD 0
        else animatedVertex := by
    funext animatedVertex i
    exact blendInfluence_explicit _ _ _ _ _ _
  simp only [hstep]

/-- C3: `TestRaycastOnNodeWithAnimatedModel` returns `true` if and only if
the skeleton has zero bones, or some geometry index `g < GetNumGeometries()`
has a non-null LOD-0 geometry for which the ray/triangle distance of the
localised ray against the CPU-deformed vertices is below infinity.  In
particular, with at least one bone it returns `false` when no geometry is
hit, and when there are no geometries at all.  The localised ray is the ray
with the node's world position subtracted from its origin; the bone matrices
are, per bone, the bone node's world transform with its translation made
relative to the node, times the bone's offset matrix; the deformed vertices
are the geometry's vertices with each position replaced by the blend, in
index order from the zero vector, of the influences whose index names a bone
and whose weight passes the weight test. -/
theorem TestRaycastOnNodeWithAnimatedModel_true_iff {α : Type} [Zero α] [One α] [Add α]
    [Sub α] [Mul α] [LT α] [LE α] [DecidableRel (α := α) (· < ·)]
    [DecidableRel (α := α) (· ≤ ·)] (E : Engine α) (ray : Ray α) (node : Node α) :
    let localRay : Ray α := ⟨ray.origin_ - node.worldPosition, ray.direction_⟩
    let matricesOfBones : List (Matrix3x4 α) :=
      node.animatedModel.skeleton.bones.map (fun bone =>
        (E.fromTRS ((E.Decompose (node.childWorldTransform bone.name_)).1 - node.worldPosition)
          (E.Decompose (node.childWorldTransform bone.name_)).2.1
          (E.Decompose (node.childWorldTransform bone.name_)).2.2).mul bone.offsetMatrix_)
    let deformed : Vertex α → Vertex α := fun vertex =>
      { vertex with position :=
          ([0, 1, 2, 3] : List (Fin 4)).foldl (fun animatedVertex i =>
            if (vertex.blendIndices i).val < matricesOfBones.length ∧
                ¬ (vertex.blendWeights i ≤ 0 ∨ 1 < vertex.blendWeights i) then
              animatedVertex + ((matricesOfBones.get? (vertex.blendIndices i).val).map
                (fun m => (m.scale (vertex.blendWeights i)).mulVec vertex.position)).getD 0
            else animatedVertex) 0 }
    let hit : Geometry α → Prop := fun geometry =>
      E.HitDistance localRay (geometry.vertices.map deformed)
        geometry.indexData geometry.indexStart geometry.indexCount < ⊤
    (TestRaycastOnNodeWithAnimatedModel E ray node = true ↔
      node.animatedModel.skeleton.bones.length = 0 ∨
      ∃ g, g < node.animatedModel.model.geometries.length ∧
        ∃ geometry, (node.animatedModel.model.geometries.get? g).join = some geometry ∧
          hit geometry) ∧
    (node.animatedModel.skeleton.bones.length ≠ 0 →
      (∀ g geometry, g < node.animatedModel.model.geometries.length →
        (node.animatedModel.model.geometries.get? g).join = some geometry → ¬ hit geometry) →
      TestRaycastOnNodeWithAnimatedModel E ray node = false) ∧
    (node.animatedModel.skeleton.bones.length ≠ 0 →
      node.animatedModel.model.geometries.length = 0 →
      TestRaycastOnNodeWithAnimatedModel E ray node = false) := by
  intro localRay matricesOfBones deformed hit
  have main : TestRaycastOnNodeWithAnimatedModel E ray node = true ↔
      node.animatedModel.skeleton.bones.length = 0 ∨
      ∃ g, g < node.animatedModel.model.geometries.length ∧
        ∃ geometry, (node.animatedModel.model.geometries.get? g).join = some geometry ∧
          hit geometry := by
    have h := skinningTest_iff_loop E ray node
    simp only [skinVertices_explicit] at h
    exact h
  refine ⟨main, ?_, ?_⟩
  · intro hb hmiss
    cases ht : TestRaycastOnNodeWithAnimatedModel E ray node with
    | false => rfl
    | true =>
      rcases main.1 ht with h0 | ⟨g, hg, geometry, hgeo, hd⟩
      · exact absurd h0 hb
      · exact absurd hd (hmiss g geometry hg hgeo)
  · intro hb hn
    cases ht : TestRaycastOnNodeWithAnimatedModel E ray node with
    | false => rfl
    | true =>
      rcases main.1 ht with h0 | ⟨g, hg, _⟩
      · exact absurd h0 hb
      · omega

theorem TestRaycastOnNodeWithAnimatedModel_true_iff_witness :
    TestRaycastOnNodeWithAnimatedModel aimEngine posedRay
        (posedNode [none, some posedGeometry]) = true ∧
    ((posedNode [none, some posedGeometry]).animatedModel.skeleton.bones.length ≠ 0 ∧
      TestRaycastOnNodeWithAnimatedModel aimEngine bindPoseRay
        (posedNode [none, some posedGeometry]) = false) ∧
    ((posedNode []).animatedModel.skeleton.bones.length ≠ 0 ∧
      (posedNode []).animatedModel.model.geometries.length = 0 ∧
      TestRaycastOnNodeWithAnimatedModel aimEngine posedRay (posedNode []) = false) :=
  ⟨(TestRaycastOnNodeWithAnimatedModel_true_iff aimEngine posedRay
        (posedNode [none, some posedGeometry])).1.2
      (Or.inr ⟨1, by decide, posedGeometry, rfl, by decide⟩),
    ⟨by decide,
      (TestRaycastOnNodeWithAnimatedModel_true_iff aimEngine bindPoseRay
          (posedNode [none, some posedGeometry])).2.1 (by decide)
        (fun g geometry hg hgeo => by
          have hg2 : g < 2 := hg
          have hcases : g = 0 ∨ g = 1 := by omega
          rcases hcases with h0 | h1
          · subst h0
            cases hgeo
          · subst h1
            have hgeo1 : posedGeometry = geometry := Option.some.inj hgeo
            subst hgeo1
            decide)⟩,
    ⟨by decide, by decide,
      (TestRaycastOnNodeWithAnimatedModel_true_iff aimEngine posedRay
          (posedNode [])).2.2 (by decide) (by decide)⟩⟩

/-! ### The blend -/

theorem scale_mulVec {α : Type} [CommRing α] (m : Matrix3x4 α) (w : α) (v : Vector3 α) :
    (m.scale w).mulVec v = (m.mulVec v).scale w := by
  simp only [Matrix3x4.scale, Matrix3x4.mulVec, Vector3.scale, Vector3.mk.injEq]
  refine ⟨?_, ?_, ?_⟩ <;> ring

theorem blendInfluence_eq {α : Type} [LinearOrderedCommRing α]
    (matricesOfBones : List (Matrix3x4 α)) (vertex : Vertex α) (acc : Vector3 α) (i : Fin 4) :
    blendInfluence matricesOfBones vertex.blendWeights vertex.blendIndices vertex.position acc i =
      acc + (if influenceCounts matricesOfBones vertex i then
        weightedBonePosition matricesOfBones vertex i else 0) := by
  unfold blendInfluence
  simp only []
  split
  · rename_i h
    have hc : ¬ influenceCounts matricesOfBones vertex i := fun hc => absurd hc.1 (by omega)
    rw [if_neg hc, add_zero]
  · rename_i h
    split
    · rename_i hw
      have hc : ¬ influenceCounts matricesOfBones vertex i := by
        rintro ⟨_, h1, h2⟩
        rcases hw with hw | hw
        · exact absurd h1 (not_lt.mpr hw)
        · exact absurd h2 (not_le.mpr hw)

      rw [if_neg hc, add_zero]
    · rename_i hw
      have hlt : (vertex.blendIndices i).val < matricesOfBones.length := by omega
      have hc : influenceCounts matricesOfBones vertex i := by
        refine ⟨hlt, ?_, ?_⟩
        · exact not_le.mp (fun h0 => hw (Or.inl h0))
        · exact not_lt.mp (fun h1 => hw (Or.inr h1))
      rw [if_pos hc]
      unfold weightedBonePosition
      rw [List.get?_eq_get hlt]
      simp only [Option.map_some', Option.getD_some]
      rw [scale_mulVec]

theorem skinVertex_position {α : Type} [LinearOrderedCommRing α]
    (matricesOfBones : List (Matrix3x4 α)) (vertex : Vertex α) :
    (skinVertex matricesOfBones vertex).position = blendFormula matricesOfBones vertex := by
  unfold skinVertex blendFormula
  simp only [List.foldl_cons, List.foldl_nil, blendInfluence_eq]
  rw [Finset.sum_filter, Fin.sum_univ_four, zero_add]

theorem blend_exact {α : Type} [LinearOrderedCommRing α]
    (matricesOfBones : List (Matrix3x4 α)) (dataOfVertices : List (Vertex α)) (v : ℕ) :
    ((skinVertices matricesOfBones dataOfVertices).get? v).map (fun vertex => vertex.position) =
      (dataOfVertices.get? v).map (blendFormula matricesOfBones) := by
  unfold skinVertices
  rw [List.get?_eq_getElem?, List.getElem?_map, ← List.get?_eq_getElem?]
  cases dataOfVertices.get? v with
  | none => rfl
  | some vertex => simp [skinVertex_position]

theorem foldl_skip_eq_foldl_filter {β ι : Type} (p : ι → Prop) [DecidablePred p]
    (f : β → ι → β) (l : List ι) (a : β) :
    l.foldl (fun acc i => if p i then f acc i else acc) a =
      (l.filter (fun i => decide (p i))).foldl f a := by
  induction l generalizing a with
  | nil => rfl
  | cons i l ih =>
    by_cases hp : p i
    · rw [List.foldl_cons, if_pos hp, ih, List.filter_cons_of_pos (by simpa using hp),
        List.foldl_cons]
    · rw [List.foldl_cons, if_neg hp, ih, List.filter_cons_of_neg (by simpa using hp)]

theorem Binary32.one_eq : (1 : Binary32) = Binary32.finite ((2 ^ 149 : ℕ) : ℤ) := by
  decide

theorem Binary32.weight_test (w : Binary32) (h : w ≠ Binary32.nan) :
    ¬ (w ≤ 0 ∨ 1 < w) ↔ (0 < w ∧ w ≤ 1) := by
  cases w with
  | nan => exact absurd rfl h
  | infinity s => cases s <;> decide
  | finite u =>
    rw [Binary32.one_eq]
    generalize ((2 ^ 149 : ℕ) : ℤ) = k
    show ¬ (Binary32.leb (Binary32.finite u) (Binary32.finite 0) = true ∨
        Binary32.ltb (Binary32.finite k) (Binary32.finite u) = true) ↔
      (Binary32.ltb (Binary32.finite 0) (Binary32.finite u) = true ∧
        Binary32.leb (Binary32.finite u) (Binary32.finite k) = true)
    simp only [Binary32.leb, Binary32.ltb, decide_eq_true_eq]
    omega

theorem blend_binary32 (matricesOfBones : List (Matrix3x4 Binary32)) (vertex : Vertex Binary32)
    (h : ∀ i, vertex.blendWeights i ≠ Binary32.nan) :
    (skinVertex matricesOfBones vertex).position =
      (([0, 1, 2, 3] : List (Fin 4)).filter (fun i => decide
        ((vertex.blendIndices i).val < matricesOfBones.length ∧
          0 < vertex.blendWeights i ∧ vertex.blendWeights i ≤ 1))).foldl
        (fun acc i => acc + ((matricesOfBones.get? (vertex.blendIndices i).val).map
          (fun m => (m.scale (vertex.blendWeights i)).mulVec vertex.position)).getD 0) 0 := by
  unfold skinVertex
  simp only []
  have hstep : blendInfluence matricesOfBones vertex.blendWeights vertex.blendIndices
      vertex.position = fun acc i =>
        if (vertex.blendIndices i).val < matricesOfBones.length ∧
            0 < vertex.blendWeights i ∧ vertex.blendWeights i ≤ 1 then
          acc + ((matricesOfBones.get? (vertex.blendIndices i).val).map
            (fun m => (m.scale (vertex.blendWeights i)).mulVec vertex.position)).getD 0
        else acc := by
    funext acc i
    rw [blendInfluence_explicit]
    by_cases hc : (vertex.blendIndices i).val < matricesOfBones.length ∧
        ¬ (vertex.blendWeights i ≤ 0 ∨ 1 < vertex.blendWeights i)
    · rw [if_pos hc, if_pos ⟨hc.1, (Binary32.weight_test _ (h i)).1 hc.2⟩]
    · rw [if_neg hc, if_neg (fun hq => hc ⟨hq.1, (Binary32.weight_test _ (h i)).2 hq.2⟩)]
  rw [hstep]
  exact foldl_skip_eq_foldl_filter _ _ _ _

theorem skinVertices_sample :
    ((skinVertices rationalBones [rationalVertex, unboundVertex]).get? 0).map
      (fun vertex => vertex.position) = some ⟨3 / 2, 2, 5 / 2⟩ := by
  decide!

section ColourTheorems

variable {α : Type} [Zero α] [One α] [Add α] [Sub α] [Mul α] [LT α] [LE α]
  [DecidableRel (α := α) (· < ·)] [DecidableRel (α := α) (· ≤ ·)]

theorem colourLoop_ne_yellow (E : Engine α) (ray : Ray α) (results : List (RayQueryResult α)) :
    (colourLoop E ray results).1 ≠ Color.YELLOW := by
  induction results with
  | nil => simp [colourLoop]
  | cons r rest ih =>
    unfold colourLoop
    split
    · simp
    · split
      · simp
      · exact ih

theorem colourLoop_gray_iff_index (E : Engine α) (ray : Ray α)
    (results : List (RayQueryResult α)) :
    (colourLoop E ray results).1 = Color.GRAY ↔
      ∃ i r, results.get? i = some r ∧
        (∀ r1 ∈ results.take (i + 1), r1.drawable_.typeName = "AnimatedModel") ∧
        (∀ r1 ∈ results.take i, TestRaycastOnNodeWithAnimatedModel E ray r1.node_ = true) ∧
        TestRaycastOnNodeWithAnimatedModel E ray r.node_ = false := by
  induction results with
  | nil => simp [colourLoop]
  | cons r0 rest ih =>
    unfold colourLoop
    by_cases ha : r0.drawable_.typeName = "AnimatedModel"
    · rw [if_neg (not_not.mpr ha)]
      cases ht : TestRaycastOnNodeWithAnimatedModel E ray r0.node_ with
      | false =>
        simp only [Bool.false_eq_true, not_false_eq_true, if_true, true_iff]
        refine ⟨0, r0, rfl, ?_, ?_, ht⟩
        · intro r1 hr1
          simp only [zero_add, List.take_succ_cons, List.take_zero, List.mem_singleton] at hr1
          rw [hr1]
          exact ha
        · intro r1 hr1
          simp at hr1
      | true =>
        simp only [not_true_eq_false, if_false]
        rw [ih]
        constructor
        · rintro ⟨i, r, hget, hall, hpass, hfail⟩
          refine ⟨i + 1, r, by simpa using hget, ?_, ?_, hfail⟩
          · intro r1 hr1
            rw [List.take_succ_cons, List.mem_cons] at hr1
            rcases hr1 with h | h
            · rw [h]
              exact ha
            · exact hall r1 h
          · intro r1 hr1
            rw [List.take_succ_cons, List.mem_cons] at hr1
            rcases hr1 with h | h
            · rw [h]
              exact ht
            · exact hpass r1 h
        · rintro ⟨i, r, hget, hall, hpass, hfail⟩
          cases i with
          | zero =>
            simp only [List.get?_cons_zero, Option.some.injEq] at hget
            rw [← hget, ht] at hfail
            cases hfail
          | succ j =>
            refine ⟨j, r, by simpa using hget, ?_, ?_, hfail⟩
            · intro r1 hr1
              exact hall r1 (by rw [List.take_succ_cons]; exact List.mem_cons_of_mem _ hr1)
            · intro r1 hr1
              exact hpass r1 (by rw [List.take_succ_cons]; exact List.mem_cons_of_mem _ hr1)
    · rw [if_pos ha]
      constructor
      · intro h
        cases h
      · rintro ⟨i, r, _, hall, _, _⟩
        exact absurd (hall r0 (by rw [List.take_succ_cons]; exact List.mem_cons_self _ _)) ha

theorem colourLoop_gray_iff_leading (E : Engine α) (ray : Ray α)
    (results : List (RayQueryResult α)) :
    (colourLoop E ray results).1 = Color.GRAY ↔
      ∃ r ∈ results.takeWhile (fun r => decide (r.drawable_.typeName = "AnimatedModel")),
        TestRaycastOnNodeWithAnimatedModel E ray r.node_ = false := by
  induction results with
  | nil => simp [colourLoop]
  | cons r0 rest ih =>
    unfold colourLoop
    by_cases ha : r0.drawable_.typeName = "AnimatedModel"
    · rw [if_neg (not_not.mpr ha), List.takeWhile_cons_of_pos (by simpa using ha)]
      cases ht : TestRaycastOnNodeWithAnimatedModel E ray r0.node_ with
      | false =>
        simp only [Bool.false_eq_true, not_false_eq_true, if_true, true_iff]
        exact ⟨r0, List.mem_cons_self _ _, ht⟩
      | true =>
        simp only [not_true_eq_false, if_false]
        rw [ih]
        constructor
        · rintro ⟨r, hr, hfail⟩
          exact ⟨r, List.mem_cons_of_mem _ hr, hfail⟩
        · rintro ⟨r, hr, hfail⟩
          rcases List.mem_cons.mp hr with h | h
          · rw [h, ht] at hfail
            cases hfail
          · exact ⟨r, h, hfail⟩
    · rw [if_pos ha, List.takeWhile_cons_of_neg (by simpa using ha)]
      simp

theorem colourLoop_calls_prefix (E : Engine α) (ray : Ray α)
    (results : List (RayQueryResult α)) :
    (colourLoop E ray results).2 <+:
      (results.takeWhile (fun r => decide (r.drawable_.typeName = "AnimatedModel"))).map
        (fun r => r.node_) := by
  induction results with
  | nil => simp [colourLoop]
  | cons r0 rest ih =>
    unfold colourLoop
    by_cases ha : r0.drawable_.typeName = "AnimatedModel"
    · rw [if_neg (not_not.mpr ha), List.takeWhile_cons_of_pos (by simpa using ha)]
      split
      · simp only [List.map_cons]
        exact List.prefix_iff_eq_take.mpr (by simp)
      · simp only [List.map_cons]
        exact (List.prefix_cons_inj _).mpr ih
    · rw [if_pos ha]
      exact List.nil_prefix

theorem colourLoop_red_or_gray (E : Engine α) (ray : Ray α) (results : List (RayQueryResult α)) :
    (colourLoop E ray results).1 = Color.RED ∨ (colourLoop E ray results).1 = Color.GRAY := by
  have h := colourLoop_ne_yellow E ray results
  cases hc : (colourLoop E ray results).1 with
  | YELLOW => exact absurd hc h
  | RED => exact Or.inl rfl
  | GRAY => exact Or.inr rfl

theorem lineColor_of_ne_nil (E : Engine α) (ray : Ray α) (results : List (RayQueryResult α))
    (h : results ≠ []) : lineColorAndCalls E ray results = colourLoop E ray results := by
  unfold lineColorAndCalls
  rw [if_pos]
  simpa using h

/-- C7: the colour loop of `HandleUpdate` only examines the leading run of
`AnimatedModel` results.  The line is yellow iff the result list is empty; it
is gray iff there is an index `i` such that results `0..i` are all
`AnimatedModel` drawables, results `0..i-1` all pass
`TestRaycastOnNodeWithAnimatedModel` and result `i` fails it; otherwise it is
red.  The skinning test is called only on nodes of the leading run, in
order; in particular, if the first result is not an `AnimatedModel` the line
is red and the test is never called, whatever follows in the list. -/
theorem lineColor_leading_run (E : Engine α) (ray : Ray α)
    (results : List (RayQueryResult α)) :
    (lineColor E ray results = Color.YELLOW ↔ results = []) ∧
    (lineColor E ray results = Color.GRAY ↔
      ∃ i r, results.get? i = some r ∧
        (∀ r1 ∈ results.take (i + 1), r1.drawable_.typeName = "AnimatedModel") ∧
        (∀ r1 ∈ results.take i, TestRaycastOnNodeWithAnimatedModel E ray r1.node_ = true) ∧
        TestRaycastOnNodeWithAnimatedModel E ray r.node_ = false) ∧
    (lineColor E ray results = Color.RED ↔
      results ≠ [] ∧ ¬ ∃ i r, results.get? i = some r ∧
        (∀ r1 ∈ results.take (i + 1), r1.drawable_.typeName = "AnimatedModel") ∧
        (∀ r1 ∈ results.take i, TestRaycastOnNodeWithAnimatedModel E ray r1.node_ = true) ∧
        TestRaycastOnNodeWithAnimatedModel E ray r.node_ = false) ∧
    ((lineColorAndCalls E ray results).2 <+:
      (results.takeWhile (fun r => decide (r.drawable_.typeName = "AnimatedModel"))).map
        (fun r => r.node_)) ∧
    (∀ r rest, results = r :: rest → r.drawable_.typeName ≠ "AnimatedModel" →
      lineColor E ray results = Color.RED ∧ (lineColorAndCalls E ray results).2 = []) := by
  by_cases hnil : results = []
  · subst hnil
    refine ⟨by simp [lineColor, lineColorAndCalls], ?_, ?_, ?_, ?_⟩
    · simp [lineColor, lineColorAndCalls]
    · simp [lineColor, lineColorAndCalls]
    · simp [lineColorAndCalls]
    · intro r rest h
      cases h
  · have hcol : lineColor E ray results = (colourLoop E ray results).1 := by
      unfold lineColor
      rw [lineColor_of_ne_nil E ray results hnil]
    have hgray := colourLoop_gray_iff_index E ray results
    refine ⟨?_, ?_, ?_, ?_, ?_⟩
    · rw [hcol]
      constructor
      · intro h
        exact absurd h (colourLoop_ne_yellow E ray results)
      · intro h
        exact absurd h hnil
    · rw [hcol]
      exact hgray
    · rw [hcol, ← hgray]
      constructor
      · intro h
        refine ⟨hnil, ?_⟩
        rw [h]
        simp
      · rintro ⟨_, h⟩
        rcases colourLoop_red_or_gray E ray results with h1 | h1
        · exact h1
        · exact absurd h1 h
    · rw [lineColor_of_ne_nil E ray results hnil]
      exact colourLoop_calls_prefix E ray results
    · intro r rest hres hna
      rw [hcol, lineColor_of_ne_nil E ray results hnil, hres]
      unfold colourLoop
      rw [if_pos hna]
      exact ⟨rfl, rfl⟩

/-- C1 (amended): for every debug ray whose octree query returns a non-empty
result list, the line is gray if and only if at least one result of the
leading run of `AnimatedModel` results (the results that no other drawable
precedes) fails `TestRaycastOnNodeWithAnimatedModel`, and red otherwise, that
is, when every result of that leading run passes the test. -/
theorem lineColor_of_nonempty (E : Engine α) (ray : Ray α)
    (results : List (RayQueryResult α)) (h : results ≠ []) :
    (lineColor E ray results = Color.GRAY ↔
      ∃ r ∈ results.takeWhile (fun r => decide (r.drawable_.typeName = "AnimatedModel")),
        TestRaycastOnNodeWithAnimatedModel E ray r.node_ = false) ∧
    (lineColor E ray results = Color.RED ↔
      ∀ r ∈ results.takeWhile (fun r => decide (r.drawable_.typeName = "AnimatedModel")),
        TestRaycastOnNodeWithAnimatedModel E ray r.node_ = true) := by
  have hcol : lineColor E ray results = (colourLoop E ray results).1 := by
    unfold lineColor
    rw [lineColor_of_ne_nil E ray results h]
  have hgray := colourLoop_gray_iff_leading E ray results
  rw [hcol]
  refine ⟨hgray, ?_⟩
  constructor
  · intro hred r hr
    cases ht : TestRaycastOnNodeWithAnimatedModel E ray r.node_ with
    | true => rfl
    | false =>
      have hg := hgray.2 ⟨r, hr, ht⟩
      rw [hred] at hg
      cases hg
  · intro hall
    rcases colourLoop_red_or_gray E ray results with h1 | h1
    · exact h1
    · obtain ⟨r, hr, hfail⟩ := hgray.1 h1
      rw [hall r hr] at hfail
      cases hfail

end ColourTheorems

theorem lineColor_leading_run_witness :
    blockedResults = ⟨⟨"StaticModel"⟩, sampleNode []⟩ :: [⟨⟨"AnimatedModel"⟩, sampleNode [none]⟩] ∧
    (⟨"StaticModel"⟩ : Drawable).typeName ≠ "AnimatedModel" ∧
    lineColor (sampleEngine blockedResults) sampleRay blockedResults = Color.RED ∧
    (lineColorAndCalls (sampleEngine blockedResults) sampleRay blockedResults).2 = [] :=
  ⟨rfl, by decide,
    (lineColor_leading_run (sampleEngine blockedResults) sampleRay blockedResults).2.2.2.2
      ⟨⟨"StaticModel"⟩, sampleNode []⟩ [⟨⟨"AnimatedModel"⟩, sampleNode [none]⟩] rfl (by decide)⟩

theorem lineColor_leading_sample :
    lineColor (sampleEngine leadingResults) sampleRay leadingResults = Color.GRAY := by
  decide

theorem lineColor_of_nonempty_witness :
    leadingResults ≠ [] ∧
    (lineColor (sampleEngine leadingResults) sampleRay leadingResults = Color.GRAY ↔
      ∃ r ∈ leadingResults.takeWhile
          (fun r => decide (r.drawable_.typeName = "AnimatedModel")),
        TestRaycastOnNodeWithAnimatedModel (sampleEngine leadingResults) sampleRay r.node_
          = false) ∧
    (lineColor (sampleEngine leadingResults) sampleRay leadingResults = Color.RED ↔
      ∀ r ∈ leadingResults.takeWhile
          (fun r => decide (r.drawable_.typeName = "AnimatedModel")),
        TestRaycastOnNodeWithAnimatedModel (sampleEngine leadingResults) sampleRay r.node_
          = true) :=
  ⟨by simp [leadingResults],
    lineColor_of_nonempty (sampleEngine leadingResults) sampleRay leadingResults
      (by simp [leadingResults])⟩

/-- C1 (counterexample): a ray that meets a static model and, behind it, an
animated model whose deformed mesh it misses.  The result list is not empty
and a result whose drawable is an `AnimatedModel` fails
`TestRaycastOnNodeWithAnimatedModel`, yet the line is red, not gray. -/
theorem lineColor_red_despite_failing_model :
    (sampleEngine blockedResults).Raycast sampleRay ≠ [] ∧
    (∃ r ∈ (sampleEngine blockedResults).Raycast sampleRay,
      r.drawable_.typeName = "AnimatedModel" ∧
      TestRaycastOnNodeWithAnimatedModel (sampleEngine blockedResults) sampleRay r.node_
        = false) ∧
    lineColor (sampleEngine blockedResults) sampleRay
      ((sampleEngine blockedResults).Raycast sampleRay) = Color.RED ∧
    lineColor (sampleEngine blockedResults) sampleRay
      ((sampleEngine blockedResults).Raycast sampleRay) ≠ Color.GRAY := by
  refine ⟨by simp [sampleEngine, blockedResults], ?_, by decide, by decide⟩
  refine ⟨⟨⟨"AnimatedModel"⟩, sampleNode [none]⟩, ?_, rfl, by decide⟩
  simp [sampleEngine, blockedResults]

end Urho3dRaycast
